import Mathlib

/-!
Verification of the votte DOM-tree processing and action-addressing engine.

This file gives a shallow embedding in Lean 4 of the parts of the repository
that the verified properties talk about:

* `packages/votte-core/node_type.py` — `NodeType`, `NodeCategory`, `NodeRole`
  (role tables, `short_id`, `category`);
* `packages/votte-core/dom_tree.py` — `DomNode` (`subtree_ids`, `find`,
  `is_interaction`, `inner_text`, `flatten`, `interaction_nodes`,
  `subtree_filter`, `subtree_without`, `to_interaction_node`);
* `packages/votte-browser/pruning.py` — `prune_empty_texts`,
  `prioritize_role`, `prioritize_text`, `_fold_single_child`,
  `fold_single_childs`, `prune_dom_tree`;
* `packages/votte-core/snapshot.py` — `BrowserSnapshot.subgraph_without`;
* `packages/notte-browser/id_generation.py` — `generate_sequential_ids`;
* `packages/votte-browser/csspaths.py` — `xpath_to_css_path`, `build_csspath`;
* `packages/notte-browser/resolution.py` — `NotteActionProxy` and
  `NodeResolutionPipe`, with `selectors_through_shadow_dom` from
  `packages/notte-browser/locate.py`.

Python strings are modelled as Lean `String` (ASCII semantics for
whitespace and case operations), `None` as `Option`, raised exceptions as
`Except`, and in-place mutation as functional update.  Machine integers do
not occur in the modelled code paths (all counters are unbounded Python
ints, modelled as `Nat`).
-/

namespace Votte

/-! ## Python string primitives

Helpers modelling the Python `str` operations used by the embedded code:
`str.strip()` (ASCII whitespace), `in` (substring test), `str.split`,
`str.strip(chars)`, and decimal formatting of `int`. -/

/-- The ASCII whitespace characters recognised by Python `str.strip()`. -/
def pyWsChar (c : Char) : Bool :=
  c = ' ' || c = '\t' || c = '\n' || c = '\r' || c = '\x0b' || c = '\x0c'

/-- Python `str.strip()` on a character list: drop whitespace on both ends. -/
def pyStripList (l : List Char) : List Char :=
  ((l.dropWhile pyWsChar).reverse.dropWhile pyWsChar).reverse

/-- Python `str.strip()`. -/
def pyStrip (s : String) : String :=
  ⟨pyStripList s.data⟩

/-- Python `needle in hay` (substring containment) on character lists. -/
def pyInList (needle hay : List Char) : Bool :=
  decide (List.IsInfix needle hay)

/-- Python `needle in hay` (substring containment). -/
def pyIn (needle hay : String) : Bool :=
  pyInList needle.data hay.data

/-- Python `str.split(sep)` for a one-character separator: split on every
occurrence, keeping empty pieces. -/
def pySplitChar (sep : Char) : List Char → List (List Char)
  | [] => [[]]
  | c :: cs =>
    match pySplitChar sep cs with
    | [] => [[]]
    | p :: ps => if c = sep then [] :: p :: ps else (c :: p) :: ps

/-- Python `str.strip(chars)`: drop characters of the set on both ends. -/
def pyStripChars (chars : List Char) (l : List Char) : List Char :=
  ((l.dropWhile (chars.contains ·)).reverse.dropWhile (chars.contains ·)).reverse

/-- ASCII upper-casing of one character (Python `str.upper` on the ASCII
role and tag names the embedded code upper-cases). -/
def pyUpperChar (c : Char) : Char :=
  if c.isLower then Char.ofNat (c.toNat - 32) else c

/-- ASCII lower-casing of one character. -/
def pyLowerChar (c : Char) : Char :=
  if c.isUpper then Char.ofNat (c.toNat + 32) else c

/-- Python `str.upper()` (ASCII). -/
def pyToUpper (s : String) : String :=
  ⟨s.data.map pyUpperChar⟩

/-- Python `str.lower()` (ASCII). -/
def pyToLower (s : String) : String :=
  ⟨s.data.map pyLowerChar⟩

/-- Python `sep.join(parts)`. -/
def pyJoin (sep : String) : List String → String
  | [] => ""
  | [x] => x
  | x :: rest => x ++ sep ++ pyJoin sep rest

/-- The decimal digit characters, as Python `str(int)` prints them. -/
def digitChar (d : Nat) : Char :=
  match d with
  | 0 => '0' | 1 => '1' | 2 => '2' | 3 => '3' | 4 => '4'
  | 5 => '5' | 6 => '6' | 7 => '7' | 8 => '8' | 9 => '9'
  | _ => '*'

/-- Fuelled digit expansion (structural recursion so that concrete values
reduce definitionally; the fuel is always sufficient below). -/
def natDigitsF : Nat → Nat → List Char
  | 0, _ => []
  | fuel + 1, n =>
    if n < 10 then [digitChar n]
    else natDigitsF fuel (n / 10) ++ [digitChar (n % 10)]

/-- The decimal digits of `n`, most significant first (Python `str(int)`
for non-negative values). -/
def natDigits (n : Nat) : List Char :=
  natDigitsF (n + 1) n

theorem natDigitsF_congr : ∀ n {f1 f2 : Nat}, n < f1 → n < f2 →
    natDigitsF f1 n = natDigitsF f2 n := by
  intro n
  induction n using Nat.strong_induction_on with
  | _ n ih =>
    intro f1 f2 h1 h2
    match f1, f2 with
    | k1 + 1, k2 + 1 =>
      rw [natDigitsF, natDigitsF]
      by_cases h : n < 10
      · rw [if_pos h, if_pos h]
      · rw [if_neg h, if_neg h]
        have hd : n / 10 < n := Nat.div_lt_self (by omega) (by omega)
        rw [show natDigitsF k1 (n / 10) = natDigitsF k2 (n / 10) from
          ih (n / 10) hd (by omega) (by omega)]

theorem natDigits_unfold (n : Nat) :
    natDigits n =
      if n < 10 then [digitChar n]
      else natDigits (n / 10) ++ [digitChar (n % 10)] := by
  rw [natDigits, natDigitsF]
  by_cases h : n < 10
  · rw [if_pos h, if_pos h]
  · rw [if_neg h, if_neg h, natDigits]
    have hd : n / 10 < n := Nat.div_lt_self (by omega) (by omega)
    rw [show natDigitsF n (n / 10) = natDigitsF (n / 10 + 1) (n / 10) from
      natDigitsF_congr (n / 10) (by omega) (by omega)]

/-- Python `str(n)` for a non-negative `int`. -/
def natToStr (n : Nat) : String :=
  ⟨natDigits n⟩

/-- Numeric value of a digit-character list (Python `int(s)` on digit
strings), used both by the embedded CSS-path code and to invert
`natDigits`. -/
def digitsVal (l : List Char) : Nat :=
  l.foldl (fun a c => 10 * a + (c.toNat - 48)) 0

/-- Python `str.isdigit()` restricted to ASCII: non-empty and all decimal
digits. -/
def pyIsDigit (l : List Char) : Bool :=
  !l.isEmpty && l.all (fun c => c.isDigit)

theorem digitChar_toNat {d : Nat} (h : d < 10) : (digitChar d).toNat = 48 + d := by
  interval_cases d <;> rfl

theorem digitsVal_append (l : List Char) (c : Char) :
    digitsVal (l ++ [c]) = 10 * digitsVal l + (c.toNat - 48) := by
  simp [digitsVal, List.foldl_append]

theorem digitsVal_natDigits (n : Nat) : digitsVal (natDigits n) = n := by
  induction n using Nat.strong_induction_on with
  | _ n ih =>
    rw [natDigits_unfold]
    by_cases h : n < 10
    · rw [if_pos h]
      show digitsVal ([] ++ [digitChar n]) = n
      rw [digitsVal_append, digitChar_toNat h]
      simp [digitsVal]
    · rw [if_neg h]
      rw [digitsVal_append, ih (n / 10) (Nat.div_lt_self (by omega) (by omega)),
        digitChar_toNat (Nat.mod_lt n (by omega))]
      omega

theorem natDigits_injective : Function.Injective natDigits := by
  intro m n h
  have := digitsVal_natDigits m
  rw [h, digitsVal_natDigits] at this
  omega

theorem natToStr_injective : Function.Injective natToStr := by
  intro m n h
  exact natDigits_injective (congrArg String.data h)

theorem natDigits_isDigit (n : Nat) : ∀ c ∈ natDigits n, c.isDigit := by
  induction n using Nat.strong_induction_on with
  | _ n ih =>
    rw [natDigits_unfold]
    by_cases h : n < 10
    · rw [if_pos h]
      simp only [List.mem_singleton]
      rintro c rfl
      interval_cases n <;> decide
    · rw [if_neg h]
      simp only [List.mem_append, List.mem_singleton]
      rintro c (hc | rfl)
      · exact ih (n / 10) (Nat.div_lt_self (by omega) (by omega)) c hc
      · have : n % 10 < 10 := Nat.mod_lt n (by omega)
        interval_cases h10 : n % 10 <;> simp_all <;> decide

/-! ## `node_type.py`: `NodeType`, `NodeCategory`, `NodeRole` -/

/-- `NodeType` from `votte-core/node_type.py`. -/
inductive NodeType where
  | text
  | interaction
  | image
  | other
deriving DecidableEq, Repr

/-- `NodeCategory` from `votte-core/node_type.py`. -/
inductive NodeCategory where
  | structural
  | data_display
  | text
  | interaction
  | table
  | list
  | other
  | code
  | tree
  | image
deriving DecidableEq, Repr

/-- `NodeCategory.LIST.roles()`. -/
def NodeCategory.listRoles : List String :=
  ["list", "listitem", "listmarker"]

/-- `NodeCategory.STRUCTURAL.roles()`. -/
def NodeCategory.structuralRoles : List String :=
  ["group", "generic", "none", "application", "main", "WebArea"]

/-- The members of the `NodeRole` enum: Python member name (always the
upper-cased value) paired with the member's canonical value string. -/
def nodeRoleMembers : List (String × String) :=
  [("APPLICATION", "application"), ("GENERIC", "generic"), ("GROUP", "group"),
   ("MAIN", "main"), ("NONE", "none"), ("WEBAREA", "WebArea"),
   ("ALERT", "alert"), ("ALERTDIALOG", "alertdialog"), ("ARTICLE", "article"),
   ("BANNER", "banner"), ("DIRECTORY", "directory"), ("DOCUMENT", "document"),
   ("DIALOG", "dialog"), ("FEED", "feed"), ("NAVIGATION", "navigation"),
   ("MENUBAR", "menubar"), ("RADIOGROUP", "radiogroup"), ("REGION", "region"),
   ("SEARCH", "search"), ("TABLIST", "tablist"), ("TABPANEL", "tabpanel"),
   ("TOOLBAR", "toolbar"), ("TOOLTIP", "tooltip"), ("FORM", "form"),
   ("MENU", "menu"), ("MENULISTPOPUP", "MenuListPopup"), ("MODAL", "modal"),
   ("TEXT", "text"), ("LABELTEXT", "LabelText"), ("HEADING", "heading"),
   ("PARAGRAPH", "paragraph"), ("BLOCKQUOTE", "blockquote"),
   ("CAPTION", "caption"), ("CONTENTINFO", "contentinfo"),
   ("DEFINITION", "definition"), ("EMPHASIS", "emphasis"), ("LOG", "log"),
   ("NOTE", "note"), ("STATUS", "status"), ("STRONG", "strong"),
   ("SUBSCRIPT", "subscript"), ("SUPERSCRIPT", "superscript"),
   ("TERM", "term"), ("TIME", "time"), ("LINEBREAK", "LineBreak"),
   ("DESCRIPTIONLIST", "DescriptionList"),
   ("BUTTON", "button"), ("LINK", "link"), ("COMBOBOX", "combobox"),
   ("LISTBOX", "listbox"), ("TEXTBOX", "textbox"), ("CHECKBOX", "checkbox"),
   ("SEARCHBOX", "searchbox"), ("RADIO", "radio"), ("TAB", "tab"),
   ("MENUITEM", "menuitem"), ("MENUITEMCHECKBOX", "menuitemcheckbox"),
   ("MENUITEMRADIO", "menuitemradio"), ("SLIDER", "slider"),
   ("SWITCH", "switch"), ("OPTION", "option"),
   ("TABLE", "table"), ("ROW", "row"), ("COLUMN", "column"), ("CELL", "cell"),
   ("COLUMNHEADER", "columnheader"), ("GRID", "grid"), ("GRIDCELL", "gridcell"),
   ("ROWGROUP", "rowgroup"), ("ROWHEADER", "rowheader"),
   ("LIST", "list"), ("LISTITEM", "listitem"), ("LISTMARKER", "listmarker"),
   ("CODE", "code"), ("MATH", "math"),
   ("FIGURE", "figure"), ("IMG", "img"), ("IMAGE", "image"),
   ("IFRAME", "Iframe"), ("COMPLEMENTARY", "complementary"),
   ("DELETION", "deletion"), ("INSERTION", "insertion"),
   ("MARQUEE", "marquee"), ("METER", "meter"),
   ("PRESENTATION", "presentation"), ("PROGRESSBAR", "progressbar"),
   ("SCROLLBAR", "scrollbar"), ("SEPARATOR", "separator"),
   ("SPINBUTTON", "spinbutton"), ("TIMER", "timer"),
   ("TREE", "tree"), ("TREEGRID", "treegrid"), ("TREEITEM", "treeitem")]

/-- `NodeRole.from_value`: the canonical value of the enum member whose name
is `value.upper()`, or `none` when the string is not a member (the Python
function then returns the raw string unchanged). -/
def NodeRole.from_value (value : String) : Option String :=
  nodeRoleMembers.lookup (pyToUpper value)

/-- `NodeRole.short_id` on the canonical role value (first matching case of
the Python `match` wins, so `checkbox`/`radio` map to `"B"`). -/
def NodeRole.short_id (v : String) (force_id : Bool) : Option String :=
  if v = "link" then some "L"
  else if ["button", "tab", "menuitem", "radio", "checkbox",
           "menuitemcheckbox", "menuitemradio", "switch"].contains v then some "B"
  else if ["combobox", "textbox", "searchbox", "listbox", "checkbox",
           "radio", "slider"].contains v then some "I"
  else if ["image", "img", "figure"].contains v then some "F"
  else if v = "option" then some "O"
  else if force_id then some "M"
  else none

/-- `NodeRole.category` on the canonical role value. -/
def NodeRole.category (v : String) : NodeCategory :=
  if ["text", "heading", "paragraph", "blockquote", "caption", "contentinfo",
      "definition", "emphasis", "log", "note", "status", "strong",
      "subscript", "superscript", "term", "time", "LineBreak",
      "DescriptionList", "LabelText"].contains v then .text
  else if ["WebArea", "group", "generic", "none", "application",
           "main"].contains v then .structural
  else if ["alert", "alertdialog", "article", "banner", "directory",
           "document", "dialog", "feed", "navigation", "menubar",
           "radiogroup", "region", "search", "tablist", "tabpanel",
           "toolbar", "tooltip", "form", "menu", "MenuListPopup",
           "modal"].contains v then .data_display
  else if ["list", "listitem", "listmarker"].contains v then .list
  else if ["table", "row", "column", "cell", "columnheader", "grid",
           "gridcell", "rowgroup", "rowheader"].contains v then .table
  else if ["button", "link", "combobox", "textbox", "checkbox", "searchbox",
           "radio", "tab", "listbox", "menuitem", "menuitemcheckbox",
           "menuitemradio", "slider", "switch", "option"].contains v
    then .interaction
  else if ["code", "math"].contains v then .code
  else if ["tree", "treegrid", "treeitem"].contains v then .tree
  else if ["image", "figure", "img"].contains v then .image
  else .other


/-! ## `dom_tree.py`: the `DomNode` data model -/

/-- `NodeSelectors` from `votte-core/dom_tree.py`. -/
structure NodeSelectors where
  css_selector : String
  xpath_selector : String
  notte_selector : String
  in_iframe : Bool
  in_shadow_root : Bool
  iframe_parent_css_selectors : List String
  playwright_selector : Option String
deriving DecidableEq, Repr

/-- `ComputedDomAttributes` from `votte-core/dom_tree.py`. -/
structure ComputedDomAttributes where
  in_viewport : Bool
  is_interactive : Bool
  is_top_element : Bool
  is_editable : Bool
  shadow_root : Bool
  highlight_index : Option Nat
  selectors : Option NodeSelectors
deriving DecidableEq, Repr

/-- The fields of the (much larger) `DomAttributes` dataclass that the
embedded operations read: `tag_name` and `placeholder` (`inner_text`,
shadow-DOM resolution) and the visibility flags consulted by
`inner_text`.  The remaining fields are never read on the modelled code
paths and are omitted. -/
structure DomAttributes where
  tag_name : String
  placeholder : Option String
  hidden : Option Bool
  visible : Option Bool
  enabled : Option Bool
  type : Option String
  aria_hidden : Option Bool
deriving DecidableEq, Repr

mutual

/-- `DomNode` from `votte-core/dom_tree.py`, with the dataclass fields in
declaration order.  The Python `list` of children is `DomNodeList` (the
list spine made explicit so every tree recursion is structural and
computes definitionally).  `subtree_ids`, computed by `__post_init__`
from the other fields, is the function `DomNode.subtree_ids` below; the
mutable `parent` back-reference (set in a fix-up pass to the tree parent)
is represented by explicit ancestor lists where the code walks it. -/
inductive DomNode where
  | mk (id : Option String) (type : NodeType) (role : String) (text : String)
      (children : DomNodeList) (attributes : Option DomAttributes)
      (computed_attributes : ComputedDomAttributes)

/-- A Python `list[DomNode]`. -/
inductive DomNodeList where
  | nil
  | cons (head : DomNode) (tail : DomNodeList)

end

def DomNode.id : DomNode → Option String
  | .mk i _ _ _ _ _ _ => i

def DomNode.type : DomNode → NodeType
  | .mk _ ty _ _ _ _ _ => ty

def DomNode.role : DomNode → String
  | .mk _ _ r _ _ _ _ => r

def DomNode.text : DomNode → String
  | .mk _ _ _ tx _ _ _ => tx

def DomNode.children : DomNode → DomNodeList
  | .mk _ _ _ _ cs _ _ => cs

def DomNode.attributes : DomNode → Option DomAttributes
  | .mk _ _ _ _ _ a _ => a

def DomNode.computed_attributes : DomNode → ComputedDomAttributes
  | .mk _ _ _ _ _ _ ca => ca

/-- The `List DomNode` a `DomNodeList` stands for. -/
def DomNodeList.toList : DomNodeList → List DomNode
  | .nil => []
  | .cons c rest => c :: rest.toList

/-- Build a `DomNodeList` from a `List DomNode` (used to write examples). -/
def DomNodeList.ofList : List DomNode → DomNodeList
  | [] => .nil
  | c :: rest => .cons c (DomNodeList.ofList rest)

def DomNodeList.isEmpty : DomNodeList → Bool
  | .nil => true
  | .cons _ _ => false

theorem DomNode.eta (n : DomNode) :
    DomNode.mk n.id n.type n.role n.text n.children n.attributes
      n.computed_attributes = n := by
  cases n; rfl

theorem DomNodeList.sizeOf_mem_lt :
    ∀ {cs : DomNodeList} {c : DomNode}, c ∈ cs.toList → sizeOf c < sizeOf cs
  | .nil, c, h => by simp [DomNodeList.toList] at h
  | .cons hd tl, c, h => by
    rw [DomNodeList.toList, List.mem_cons] at h
    rcases h with rfl | h
    · simp only [DomNodeList.cons.sizeOf_spec]; omega
    · have := DomNodeList.sizeOf_mem_lt h
      simp only [DomNodeList.cons.sizeOf_spec]; omega

theorem DomNode.sizeOf_children_lt (n : DomNode) (c : DomNode)
    (h : c ∈ n.children.toList) : sizeOf c < sizeOf n := by
  cases n with
  | mk i ty r tx cs a ca =>
    have h1 : sizeOf c < sizeOf cs := DomNodeList.sizeOf_mem_lt h
    simp only [DomNode.mk.sizeOf_spec]
    simp only [DomNode.children] at h1
    omega

/-- Structural induction over `DomNode` with the children hypothesis. -/
theorem DomNode.inductionOn {P : DomNode → Prop}
    (step : ∀ n : DomNode, (∀ c ∈ n.children.toList, P c) → P n) :
    ∀ n, P n := by
  have key : ∀ k (n : DomNode), sizeOf n ≤ k → P n := by
    intro k
    induction k with
    | zero =>
      intro n hn
      cases n with
      | mk i ty r tx cs a ca =>
        rw [DomNode.mk.sizeOf_spec] at hn
        omega
    | succ k ih =>
      intro n hn
      refine step n (fun c hc => ih c ?_)
      have := DomNode.sizeOf_children_lt n c hc
      omega
  exact fun n => key (sizeOf n) n le_rfl

/-- The id contribution of a node's own (optional) id. -/
def idList (i : Option String) : List String :=
  match i with
  | none => []
  | some x => [x]

mutual

/-- `DomNode.subtree_ids`, as computed at construction by `__post_init__`:
the node's own id (when non-null) followed by the concatenation of the
children's `subtree_ids`. -/
def DomNode.subtree_ids : DomNode → List String
  | .mk i _ _ _ cs _ _ => idList i ++ DomNode.subtreeIdsList cs

/-- `subtree_ids` concatenated over a child list. -/
def DomNode.subtreeIdsList : DomNodeList → List String
  | .nil => []
  | .cons c rest => c.subtree_ids ++ DomNode.subtreeIdsList rest

end

theorem DomNode.subtree_ids_eq (n : DomNode) :
    n.subtree_ids = idList n.id ++ DomNode.subtreeIdsList n.children := by
  cases n; rfl

mutual

/-- `DomNode.flatten` with `keep_filter = None`: the node followed by the
flattening of its children, in document order. -/
def DomNode.flatten : DomNode → List DomNode
  | .mk i ty r tx cs a ca =>
    DomNode.mk i ty r tx cs a ca :: DomNode.flattenList cs

/-- `flatten` concatenated over a child list. -/
def DomNode.flattenList : DomNodeList → List DomNode
  | .nil => []
  | .cons c rest => c.flatten ++ DomNode.flattenList rest

end

theorem DomNode.flatten_eq (n : DomNode) :
    n.flatten = n :: DomNode.flattenList n.children := by
  cases n; rfl

/-- `DomNode.get_role_str`: the canonical role value when
`NodeRole.from_value` recognises the stored role string (the Python
`__post_init__` converts such strings to enum members), else the raw
string. -/
def DomNode.get_role_str (n : DomNode) : String :=
  match NodeRole.from_value n.role with
  | some v => v
  | none => n.role

/-- `DomNode.is_interaction`. -/
def DomNode.is_interaction (n : DomNode) : Bool :=
  match NodeRole.from_value n.role with
  | none => false
  | some v =>
    match n.id with
    | none => false
    | some _ =>
      if n.type = NodeType.interaction then true
      else NodeRole.category v = NodeCategory.interaction

/-- Plain list induction over `DomNodeList` (its recursor is part of the
mutual pair with `DomNode`, so `induction` needs this helper). -/
theorem DomNodeList.listInduction {P : DomNodeList → Prop} (h0 : P .nil)
    (h1 : ∀ c rest, P rest → P (.cons c rest)) : ∀ cs, P cs
  | .nil => h0
  | .cons c rest => h1 c rest (DomNodeList.listInduction h0 h1 rest)

/-- The Python truthiness chain `self.text or self.attributes.placeholder
or ""` used by `inner_text` on `<input>` nodes. -/
def inputTextOr (text : String) (placeholder : Option String) : String :=
  if text ≠ "" then text
  else
    match placeholder with
    | some p => if p ≠ "" then p else ""
    | none => ""

/-- The per-child filter of `DomNode.inner_text`: a child's text is dropped
when empty, kept when the child has no attributes, and otherwise dropped
when any of `hidden`, `visible`, `enabled` is present and `False` (the
Python `elif` chain). -/
def innerTextChildFilter (c : DomNode) (ct : String) : Option String :=
  if ct.length = 0 then none
  else
    match c.attributes with
    | none => some ct
    | some a =>
      if a.hidden = some false then none
      else if a.visible = some false then none
      else if a.enabled = some false then none
      else some ct

mutual

/-- `DomNode.inner_text` (the `depth` parameter is decremented but never
tested, exactly as in the source): `<input>` nodes short-circuit to
`text or placeholder or ""`, text nodes return their text, other nodes
space-join the filtered recursive texts of their children. -/
def DomNode.inner_text : DomNode → Int → String
  | .mk _ ty _ tx cs attrs _, depth =>
    let body :=
      if ty = NodeType.text then tx
      else String.intercalate " " (DomNode.innerTextList cs (depth - 1))
    match attrs with
    | some a =>
      if pyToLower a.tag_name = "input" then inputTextOr tx a.placeholder
      else body
    | none => body

/-- The `for child in self.children` loop of `inner_text`. -/
def DomNode.innerTextList : DomNodeList → Int → List String
  | .nil, _ => []
  | .cons c rest, depth =>
    match innerTextChildFilter c (DomNode.inner_text c depth) with
    | none => DomNode.innerTextList rest depth
    | some t => t :: DomNode.innerTextList rest depth

end

/-- `DomNode.to_interaction_node`: refuses (raises
`InvalidInternalCheckError`) unless the node's type is `interaction`; the
`InteractionDomNode` constructor additionally refuses a `None` id.  The
produced node has `text = inner_text()` (default depth 3) and no
children. -/
def DomNode.to_interaction_node (n : DomNode) : Except String DomNode :=
  if n.type ≠ NodeType.interaction then
    .error "DomNode must be an interaction node to be converted"
  else
    match n.id with
    | none => .error "InteractionNode must have a valid non-None id"
    | some _ =>
      .ok (DomNode.mk n.id NodeType.interaction n.role (n.inner_text 3)
        .nil n.attributes n.computed_attributes)

mutual

/-- `DomNode.find`: depth-first lookup of a node by id.  On a match the
node is returned, converted via `to_interaction_node` when
`is_interaction` holds — which raises when the node's type is not
`interaction`. -/
def DomNode.find : DomNode → String → Except String (Option DomNode)
  | .mk id ty role tx cs attrs ca, i =>
    let self := DomNode.mk id ty role tx cs attrs ca
    if id = some i then
      if self.is_interaction then Except.map some self.to_interaction_node
      else .ok (some self)
    else DomNode.findInChildren cs i

/-- The `for child in self.children` loop of `find`: first non-`None`
result wins; a raise propagates. -/
def DomNode.findInChildren : DomNodeList → String → Except String (Option DomNode)
  | .nil, _ => .ok none
  | .cons c rest, i =>
    match DomNode.find c i with
    | .error e => .error e
    | .ok (some r) => .ok (some r)
    | .ok none => DomNode.findInChildren rest i

end

theorem DomNode.find_eq (n : DomNode) (i : String) :
    n.find i =
      if n.id = some i then
        if n.is_interaction then Except.map some n.to_interaction_node
        else .ok (some n)
      else DomNode.findInChildren n.children i := by
  cases n; rfl

mutual

/-- `DomNode.subtree_filter`: keep nodes passing `ft`, rebuild with the
surviving children, and drop a surviving node that has no id, no surviving
children and empty stripped text. -/
def DomNode.subtree_filter (ft : DomNode → Bool) : DomNode → Option DomNode
  | .mk id ty role tx cs attrs ca =>
    if !ft (.mk id ty role tx cs attrs ca) then none
    else
      let fc := DomNode.subtreeFilterChildren ft cs
      if id = none ∧ fc.isEmpty ∧ pyStrip tx = "" then none
      else some (.mk id ty role tx fc attrs ca)

/-- The `for child in children` loop of `subtree_filter`: collect the
non-`None` recursive results in order. -/
def DomNode.subtreeFilterChildren (ft : DomNode → Bool) :
    DomNodeList → DomNodeList
  | .nil => .nil
  | .cons c rest =>
    match DomNode.subtree_filter ft c with
    | none => DomNode.subtreeFilterChildren ft rest
    | some fc => .cons fc (DomNode.subtreeFilterChildren ft rest)

end

theorem DomNode.subtree_filter_eq (ft : DomNode → Bool) (n : DomNode) :
    n.subtree_filter ft =
      if !ft n then none
      else
        let fc := DomNode.subtreeFilterChildren ft n.children
        if n.id = none ∧ fc.isEmpty ∧ pyStrip n.text = "" then none
        else some (.mk n.id n.type n.role n.text fc n.attributes
          n.computed_attributes) := by
  cases n; rfl

/-- `DomNode.subtree_without`: filter away the given (canonical) roles;
an empty result raises `NodeFilteringResultsInEmptyGraph`. -/
def DomNode.subtree_without (n : DomNode) (roles : List String) :
    Except String DomNode :=
  match n.subtree_filter (fun m =>
    match NodeRole.from_value m.role with
    | none => true
    | some v => !(roles.contains v)) with
  | none => .error "NodeFilteringResultsInEmptyGraph"
  | some f => .ok f

/-- Sequencing of fallible conversions over a list (a Python `for` loop in
which a raise propagates). -/
def exceptMapM {α β : Type} (f : α → Except String β) :
    List α → Except String (List β)
  | [] => .ok []
  | a :: as =>
    match f a with
    | .error e => .error e
    | .ok b =>
      match exceptMapM f as with
      | .error e => .error e
      | .ok bs => .ok (b :: bs)

/-- `DomNode.interaction_nodes`: all `is_interaction` nodes in document
order, each converted by `to_interaction_node` (which can raise). -/
def DomNode.interaction_nodes (n : DomNode) : Except String (List DomNode) :=
  exceptMapM DomNode.to_interaction_node
    (n.flatten.filter (fun m => m.is_interaction))

/-- The ids of the `is_interaction` nodes of the tree in document order
(extraction itself cannot raise). -/
def DomNode.interactionIds (n : DomNode) : List String :=
  (n.flatten.filter (fun m => m.is_interaction)).filterMap DomNode.id

/-- Well-formedness of a tree, as the `InteractionDomNode` invariant
documents it: every `is_interaction` node has type `interaction` (so
`to_interaction_node` never raises). -/
def DomNode.WellFormed (n : DomNode) : Prop :=
  ∀ m ∈ n.flatten, m.is_interaction → m.type = NodeType.interaction

/-! ## `pruning.py`: prune and fold -/

/-- `prune_empty_texts`: drop TEXT nodes whose stripped text is empty. -/
def prune_empty_texts (n : DomNode) : Bool :=
  !(n.type = NodeType.text ∧ pyStrip n.text = "")

/-- `prioritize_role` from `pruning.py`. -/
def prioritize_role (parent child : DomNode) : String :=
  let low_priority_roles := ["none", "generic", "group"]
  let node_role := parent.get_role_str
  let child_role := child.get_role_str
  if node_role = child_role then node_role
  else
    match low_priority_roles.contains node_role,
      low_priority_roles.contains child_role with
    | true, true => "group"
    | true, false => child_role
    | false, true => node_role
    | false, false =>
      if ["listitem", "paragraph", "main"].contains node_role then child_role
      else if ["list", "paragraph"].contains child_role then node_role
      else if child.id ≠ none then child_role
      else if parent.id ≠ none then node_role
      else child_role

/-- `prioritize_text` from `pruning.py`. -/
def prioritize_text (parent child : DomNode) : String :=
  let ptext := pyStrip parent.text
  let ctext := pyStrip child.text
  if ptext.length = 0 then ctext
  else if ctext.length = 0 then ptext
  else if pyIn ctext ptext then ptext
  else if pyIn ptext ctext then ctext
  else ptext ++ " " ++ ctext

/-- The `build_node` closure of `_fold_single_child`: merge parent and
child into one node carrying the child's children, taking id, attributes,
computed attributes and type from the prioritised side. -/
def buildFoldNode (parent child : DomNode) (new_role new_text : String)
    (child_priority : Bool) : DomNode :=
  .mk (if child_priority then child.id else parent.id)
    (if child_priority then child.type else parent.type)
    new_role new_text child.children
    (if child_priority then child.attributes else parent.attributes)
    (if child_priority then child.computed_attributes
     else parent.computed_attributes)

/-- `_fold_single_child` from `pruning.py`: the id tie-break.  When both
sides carry an id the fold is refused and the parent returned unchanged. -/
def foldSingleChild (parent child : DomNode) : DomNode :=
  let new_role := prioritize_role parent child
  let new_text := prioritize_text parent child
  match parent.id, child.id with
  | none, none =>
    if NodeCategory.listRoles.contains child.get_role_str ∨
        NodeCategory.structuralRoles.contains child.get_role_str then
      buildFoldNode parent child new_role new_text false
    else buildFoldNode parent child new_role new_text true
  | none, some _ => buildFoldNode parent child new_role new_text true
  | some _, none => buildFoldNode parent child new_role new_text false
  | some _, some _ => parent

mutual

/-- `fold_single_childs` from `pruning.py`: recursively fold, then collapse
a single surviving child into its parent via `foldSingleChild`. -/
def fold_single_childs : DomNode → DomNode
  | .mk i ty r tx cs attrs ca =>
    if cs.isEmpty then .mk i ty r tx cs attrs ca
    else
      match foldChildrenList cs with
      | .cons p .nil => foldSingleChild (.mk i ty r tx cs attrs ca) p
      | pruned => .mk i ty r tx pruned attrs ca

/-- The list comprehension `[fold_single_childs(child) for child in
node.children]`. -/
def foldChildrenList : DomNodeList → DomNodeList
  | .nil => .nil
  | .cons c rest => .cons (fold_single_childs c) (foldChildrenList rest)

end

/-- `prune_dom_tree` from `pruning.py`: prune empty-text nodes (falling
back to the pre-prune tree when pruning empties the graph), then fold
single-child chains. -/
def prune_dom_tree (n : DomNode) : DomNode :=
  let fnode :=
    match n.subtree_filter prune_empty_texts with
    | none => n
    | some f => f
  fold_single_childs fnode

/-! ## Basic lemmas about the tree operations -/

theorem fold_single_childs_nil {n : DomNode} (h : n.children = .nil) :
    fold_single_childs n = n := by
  cases n with
  | mk i ty r tx cs a ca =>
    simp only [DomNode.children] at h
    subst h
    rfl

theorem fold_single_childs_one {n c : DomNode}
    (h : n.children = .cons c .nil) :
    fold_single_childs n = foldSingleChild n (fold_single_childs c) := by
  cases n with
  | mk i ty r tx cs a ca =>
    simp only [DomNode.children] at h
    subst h
    rfl

theorem fold_single_childs_many {n : DomNode} {c1 c2 : DomNode}
    {rest : DomNodeList} (h : n.children = .cons c1 (.cons c2 rest)) :
    fold_single_childs n =
      .mk n.id n.type n.role n.text
        (foldChildrenList (DomNodeList.cons c1 (DomNodeList.cons c2 rest)))
        n.attributes n.computed_attributes := by
  cases n with
  | mk i ty r tx cs a ca =>
    simp only [DomNode.children] at h
    subst h
    rfl

theorem subtree_ids_mk (i : Option String) (ty : NodeType) (r tx : String)
    (cs : DomNodeList) (a : Option DomAttributes)
    (ca : ComputedDomAttributes) :
    (DomNode.mk i ty r tx cs a ca).subtree_ids =
      idList i ++ DomNode.subtreeIdsList cs := rfl

theorem subtreeIdsList_cons (c : DomNode) (rest : DomNodeList) :
    DomNode.subtreeIdsList (.cons c rest) =
      c.subtree_ids ++ DomNode.subtreeIdsList rest := rfl

theorem subtree_ids_buildFoldNode (parent child : DomNode)
    (nr nt : String) (b : Bool) :
    (buildFoldNode parent child nr nt b).subtree_ids =
      idList (if b then child.id else parent.id) ++
        DomNode.subtreeIdsList child.children := by
  cases b <;> rfl

theorem subtree_ids_buildFoldNode_true (parent child : DomNode)
    (nr nt : String) :
    (buildFoldNode parent child nr nt true).subtree_ids =
      child.subtree_ids := by
  rw [subtree_ids_buildFoldNode, if_pos rfl, DomNode.subtree_ids_eq child]

theorem subtree_ids_buildFoldNode_false (parent child : DomNode)
    (nr nt : String) (hcid : child.id = none) :
    (buildFoldNode parent child nr nt false).subtree_ids =
      idList parent.id ++ child.subtree_ids := by
  rw [subtree_ids_buildFoldNode, DomNode.subtree_ids_eq child, hcid]
  rfl

theorem subtreeIdsList_foldChildren (cs : DomNodeList)
    (h : ∀ c ∈ cs.toList,
      (fold_single_childs c).subtree_ids = c.subtree_ids) :
    DomNode.subtreeIdsList (foldChildrenList cs) =
      DomNode.subtreeIdsList cs := by
  induction cs using DomNodeList.listInduction with
  | h0 => rfl
  | h1 c rest ih =>
    rw [foldChildrenList, subtreeIdsList_cons, subtreeIdsList_cons,
      h c (List.mem_cons_self c rest.toList),
      ih (fun x hx => h x (List.mem_cons_of_mem c hx))]

/-- Folding never changes the node-id list (hence the id set). -/
theorem subtree_ids_fold (n : DomNode) :
    (fold_single_childs n).subtree_ids = n.subtree_ids := by
  induction n using DomNode.inductionOn with
  | step n ih =>
    match hc : n.children with
    | .nil => rw [fold_single_childs_nil hc]
    | .cons c .nil =>
      rw [fold_single_childs_one hc]
      have ihc : (fold_single_childs c).subtree_ids = c.subtree_ids :=
        ih c (by rw [hc, DomNodeList.toList]; exact List.mem_cons_self c _)
      have hnids : n.subtree_ids = idList n.id ++ c.subtree_ids := by
        rw [DomNode.subtree_ids_eq n, hc, subtreeIdsList_cons]
        simp [DomNode.subtreeIdsList]
      set fc := fold_single_childs c with hfc
      rw [foldSingleChild]
      rcases hn : n.id with _ | i <;> rcases hcid : fc.id with _ | j <;>
        simp only [hn, hcid]
      · have base : (buildFoldNode n fc (prioritize_role n fc)
            (prioritize_text n fc) false).subtree_ids = c.subtree_ids := by
          rw [subtree_ids_buildFoldNode_false n fc _ _ hcid, hn, ← ihc]
          rfl
        by_cases hrole : NodeCategory.listRoles.contains fc.get_role_str ∨
          NodeCategory.structuralRoles.contains fc.get_role_str
        · rw [if_pos hrole, base, hnids, hn]
          rfl
        · rw [if_neg hrole, subtree_ids_buildFoldNode_true, ihc, hnids, hn]
          rfl
      · rw [subtree_ids_buildFoldNode_true, ihc, hnids, hn]
        rfl
      · rw [subtree_ids_buildFoldNode_false n fc _ _ hcid, ihc, hnids, hn]
    | .cons c1 (.cons c2 rest) =>
      rw [fold_single_childs_many hc, subtree_ids_mk, DomNode.subtree_ids_eq n,
        hc, subtreeIdsList_foldChildren _ (fun x hx => ih x (by rw [hc]; exact hx))]

theorem DomNode.self_mem_flatten (n : DomNode) : n ∈ n.flatten := by
  rw [DomNode.flatten_eq]
  exact List.mem_cons_self n _

theorem mem_flattenList {m : DomNode} {cs : DomNodeList} :
    m ∈ DomNode.flattenList cs ↔ ∃ c ∈ cs.toList, m ∈ c.flatten := by
  induction cs using DomNodeList.listInduction with
  | h0 => simp [DomNode.flattenList, DomNodeList.toList]
  | h1 c rest ih =>
    rw [DomNode.flattenList, List.mem_append, ih]
    constructor
    · rintro (hm | ⟨x, hx, hm⟩)
      · exact ⟨c, List.mem_cons_self c rest.toList, hm⟩
      · exact ⟨x, List.mem_cons_of_mem c hx, hm⟩
    · rintro ⟨x, hx, hm⟩
      rcases List.mem_cons.mp hx with rfl | hx
      · exact Or.inl hm
      · exact Or.inr ⟨x, hx, hm⟩

theorem DomNode.mem_flatten_of_child {n c m : DomNode}
    (hc : c ∈ n.children.toList) (hm : m ∈ c.flatten) : m ∈ n.flatten := by
  rw [DomNode.flatten_eq]
  exact List.mem_cons_of_mem _ (mem_flattenList.mpr ⟨c, hc, hm⟩)

theorem subtreeFilterChildren_ids (ft : DomNode → Bool) (cs : DomNodeList)
    (hcs : ∀ c ∈ cs.toList,
      (c.subtree_filter ft = none → c.subtree_ids = []) ∧
      (∀ f, c.subtree_filter ft = some f → f.subtree_ids = c.subtree_ids)) :
    DomNode.subtreeIdsList (DomNode.subtreeFilterChildren ft cs) =
      DomNode.subtreeIdsList cs := by
  induction cs using DomNodeList.listInduction with
  | h0 => rfl
  | h1 c rest ih =>
    have hr := ih (fun x hx => hcs x (List.mem_cons_of_mem c hx))
    have hch := hcs c (List.mem_cons_self c rest.toList)
    rw [DomNode.subtreeFilterChildren]
    match hf : c.subtree_filter ft with
    | none =>
      rw [subtreeIdsList_cons, hr, hch.1 hf]
      rfl
    | some fc =>
      rw [subtreeIdsList_cons, subtreeIdsList_cons, hr, hch.2 fc hf]

/-- If every node failing the filter has an empty subtree-id list, then
`subtree_filter` preserves the id list: an empty result means the tree
carried no ids at all. -/
theorem subtree_filter_ids (ft : DomNode → Bool) (t : DomNode)
    (H : ∀ m ∈ t.flatten, ft m = false → m.subtree_ids = []) :
    (t.subtree_filter ft = none → t.subtree_ids = []) ∧
    (∀ f, t.subtree_filter ft = some f → f.subtree_ids = t.subtree_ids) := by
  induction t using DomNode.inductionOn with
  | step t ih =>
    by_cases hft : ft t
    · have hdi : ∀ c ∈ t.children.toList,
          (c.subtree_filter ft = none → c.subtree_ids = []) ∧
          (∀ f, c.subtree_filter ft = some f → f.subtree_ids = c.subtree_ids) :=
        fun c hc => ih c hc
          (fun m hm hmf => H m (DomNode.mem_flatten_of_child hc hm) hmf)
      have hchild := subtreeFilterChildren_ids ft t.children hdi
      rw [DomNode.subtree_filter_eq]
      simp only [hft, Bool.not_true, Bool.false_eq_true, if_false]
      by_cases hdrop : t.id = none ∧
          (DomNode.subtreeFilterChildren ft t.children).isEmpty ∧
          pyStrip t.text = ""
      · rw [if_pos hdrop]
        refine ⟨fun _ => ?_, fun f hf => by simp at hf⟩
        have hempty : DomNode.subtreeFilterChildren ft t.children = .nil := by
          match hx : DomNode.subtreeFilterChildren ft t.children with
          | .nil => rfl
          | .cons a b => rw [hx] at hdrop; simp [DomNodeList.isEmpty] at hdrop
        rw [DomNode.subtree_ids_eq, hdrop.1, ← hchild, hempty]
        rfl
      · rw [if_neg hdrop]
        refine ⟨fun hnone => by simp at hnone, fun f hf => ?_⟩
        have : f = DomNode.mk t.id t.type t.role t.text
            (DomNode.subtreeFilterChildren ft t.children) t.attributes
            t.computed_attributes := (Option.some_injective _ hf).symm
        rw [this, subtree_ids_mk, hchild, DomNode.subtree_ids_eq]
    · have hids := H t t.self_mem_flatten (by simpa using hft)
      rw [DomNode.subtree_filter_eq]
      simp only [hft]
      exact ⟨fun _ => hids, fun f hf => by simp at hf⟩

/-- Amended no-id-loss: on trees where empty-trimmed-text TEXT nodes carry
no ids anywhere in their subtrees (true of built trees, where ids only
live on highlighted element nodes), the prune/fold pipeline preserves the
id list. -/
theorem prune_dom_tree_ids (t : DomNode)
    (H : ∀ m ∈ t.flatten, m.type = NodeType.text → pyStrip m.text = "" →
      m.subtree_ids = []) :
    (prune_dom_tree t).subtree_ids = t.subtree_ids := by
  have H' : ∀ m ∈ t.flatten, prune_empty_texts m = false →
      m.subtree_ids = [] := by
    intro m hm hf
    rw [prune_empty_texts] at hf
    simp only [Bool.not_eq_false', decide_eq_true_eq] at hf
    exact H m hm hf.1 hf.2
  rw [prune_dom_tree]
  match hfil : t.subtree_filter prune_empty_texts with
  | none => simp only [subtree_ids_fold]
  | some f =>
    simp only [subtree_ids_fold]
    exact (subtree_filter_ids prune_empty_texts t H').2 f hfil

/-! ## Concrete example material shared by counterexamples and witnesses -/

/-- Default computed attributes (all flags false, no highlight index, no
selectors). -/
def comp0 : ComputedDomAttributes :=
  ⟨false, false, false, false, false, none, none⟩

/-! ## Claim C1 -/

/-- An empty-trimmed-text TEXT node that carries an id: constructible with
the `DomNode` dataclass, and the shape on which pruning loses an id. -/
def exC1 : DomNode :=
  .mk none .other "group" ""
    (.ofList [.mk (some "B1") .text "text" "" .nil none comp0,
      .mk (some "B2") .other "button" "hi" .nil none comp0])
    none comp0

/-- A tree on which no empty-text node carries ids, for the C1 witness. -/
def exC1w : DomNode :=
  .mk none .other "group" ""
    (.ofList [.mk (some "B1") .interaction "button" "hi" .nil none comp0,
      .mk none .text "text" "hello" .nil none comp0])
    none comp0

/-- C1, counterexample: `prune_dom_tree` drops the id `B1` carried by an
empty-trimmed-text TEXT node, so on this tree the id set of the result
(`{B2}`) differs from the id set of the input (`{B1, B2}`). -/
theorem claim_C1_counterexample :
    (prune_dom_tree exC1).subtree_ids = ["B2"] ∧
      exC1.subtree_ids = ["B1", "B2"] :=
  ⟨rfl, rfl⟩

/-- C1 (amended): on every DOM tree in which an empty-trimmed-text TEXT
node never carries an id (nor id-bearing descendants) — which holds for
all builder-produced trees — `prune_dom_tree` preserves the node-id list,
hence the id set; moreover if pruning would empty the tree the pre-prune
tree is folded instead, and a fold where both parent and child carry ids
is refused with the parent returned unchanged. -/
theorem claim_C1 (t : DomNode)
    (H : ∀ m ∈ t.flatten, m.type = NodeType.text → pyStrip m.text = "" →
      m.subtree_ids = []) :
    (prune_dom_tree t).subtree_ids = t.subtree_ids ∧
    (t.subtree_filter prune_empty_texts = none →
      prune_dom_tree t = fold_single_childs t) ∧
    (∀ p c : DomNode, p.id.isSome → c.id.isSome → foldSingleChild p c = p) := by
  refine ⟨prune_dom_tree_ids t H, ?_, ?_⟩
  · intro hnone
    rw [prune_dom_tree, hnone]
  · intro p c hp hc
    rw [foldSingleChild]
    rcases hpi : p.id with _ | i
    · rw [hpi] at hp; simp at hp
    · rcases hci : c.id with _ | j
      · rw [hci] at hc; simp at hc
      · simp only [hpi, hci]

/-- C1, witness: the amended theorem applied to a concrete tree. -/
theorem claim_C1_witness :
    (prune_dom_tree exC1w).subtree_ids = exC1w.subtree_ids :=
  (claim_C1 exC1w (by decide)).1

/-! ## Claim C3: fold idempotence -/

theorem foldChildrenList_toList (cs : DomNodeList) :
    (foldChildrenList cs).toList = cs.toList.map fold_single_childs := by
  induction cs using DomNodeList.listInduction with
  | h0 => rfl
  | h1 c rest ih => rw [foldChildrenList, DomNodeList.toList, ih]; rfl

theorem foldChildrenList_id (cs : DomNodeList)
    (h : ∀ d ∈ cs.toList, fold_single_childs d = d) :
    foldChildrenList cs = cs := by
  induction cs using DomNodeList.listInduction with
  | h0 => rfl
  | h1 c rest ih =>
    rw [foldChildrenList, h c (List.mem_cons_self c rest.toList),
      ih (fun d hd => h d (List.mem_cons_of_mem c hd))]

theorem buildFoldNode_children (p c : DomNode) (r t : String) (b : Bool) :
    (buildFoldNode p c r t b).children = c.children := rfl

theorem buildFoldNode_id (p c : DomNode) (r t : String) (b : Bool) :
    (buildFoldNode p c r t b).id = if b then c.id else p.id := rfl

/-- If a folded node has exactly one child, the fold was refused somewhere:
the folded node carries an id and so does the fold of its single child. -/
theorem fold_singleton_ids (x : DomNode) :
    ∀ d, (fold_single_childs x).children = .cons d .nil →
      (fold_single_childs x).id ≠ none ∧ (fold_single_childs d).id ≠ none := by
  induction x using DomNode.inductionOn with
  | step x ih =>
    intro d hd
    match hc : x.children with
    | .nil =>
      rw [fold_single_childs_nil hc, hc] at hd
      exact absurd hd (by simp)
    | .cons c .nil =>
      have hmem : c ∈ x.children.toList := by
        rw [hc, DomNodeList.toList]
        exact List.mem_cons_self c _
      rw [fold_single_childs_one hc] at hd ⊢
      set c2 := fold_single_childs c with hc2
      rw [foldSingleChild] at hd ⊢
      rcases hx : x.id with _ | i <;> rcases hcc : c2.id with _ | j <;>
        simp only [hx, hcc] at hd ⊢
      · -- both ids none: build node, children are c2's; L applies to c
        have hLc := ih c hmem d
        by_cases hrole : NodeCategory.listRoles.contains c2.get_role_str ∨
          NodeCategory.structuralRoles.contains c2.get_role_str
        · rw [if_pos hrole] at hd
          rw [buildFoldNode_children] at hd
          exact absurd ((hLc hd).1) (by rw [← hc2, hcc]; simp)
        · rw [if_neg hrole] at hd
          rw [buildFoldNode_children] at hd
          exact absurd ((hLc hd).1) (by rw [← hc2, hcc]; simp)
      · -- parent none, child id some: child-priority build
        rw [buildFoldNode_children] at hd
        have hLc := ih c hmem d hd
        refine ⟨?_, hLc.2⟩
        rw [buildFoldNode_id]
        simp [hcc]
      · -- parent some, child none: parent-priority build, L(c) contradicts
        rw [buildFoldNode_children] at hd
        have hLc := ih c hmem d hd
        exact absurd hLc.1 (by rw [← hc2, hcc]; simp)
      · -- refusal: folded node is x itself, single child is c
        rw [hc] at hd
        have : d = c := by
          have := (DomNodeList.cons.injEq _ _ _ _).mp hd
          exact this.1.symm
        subst this
        constructor
        · simp [hx]
        · rw [← hc2, hcc]; simp
    | .cons c1 (.cons c2 rest) =>
      rw [fold_single_childs_many hc] at hd
      simp only [DomNode.children] at hd
      rw [foldChildrenList, foldChildrenList] at hd
      exact absurd hd (by simp)

/-- Joint induction for fold idempotence: folding a folded tree is a no-op,
and the children of a folded node that is not a single-child refusal node
are themselves fold-stable. -/
theorem fold_idem_aux (x : DomNode) :
    fold_single_childs (fold_single_childs x) = fold_single_childs x ∧
    (∀ d ∈ (fold_single_childs x).children.toList,
      (∀ e : DomNode, (fold_single_childs x).children ≠ .cons e .nil) →
      fold_single_childs d = d) := by
  induction x using DomNode.inductionOn with
  | step x ih =>
    match hc : x.children with
    | .nil =>
      have hfx : fold_single_childs x = x := fold_single_childs_nil hc
      constructor
      · rw [hfx, hfx]
      · intro d hd _
        rw [hfx, hc] at hd
        simp [DomNodeList.toList] at hd
    | .cons c .nil =>
      have hmem : c ∈ x.children.toList := by
        rw [hc, DomNodeList.toList]
        exact List.mem_cons_self c _
      have ihc := ih c hmem
      have hfold1 : fold_single_childs x =
          foldSingleChild x (fold_single_childs c) := fold_single_childs_one hc
      set c2 := fold_single_childs c with hc2
      -- helper facts for the non-refusal build cases
      have hbuild : ∀ (b : Bool),
          (∀ d : DomNode, c2.children = DomNodeList.cons d DomNodeList.nil →
            (if b then c2.id else x.id) ≠ none) →
          fold_single_childs (buildFoldNode x c2 (prioritize_role x c2)
            (prioritize_text x c2) b) =
            buildFoldNode x c2 (prioritize_role x c2)
              (prioritize_text x c2) b ∧
          (∀ d ∈ (buildFoldNode x c2 (prioritize_role x c2)
              (prioritize_text x c2) b).children.toList,
            (∀ e : DomNode, (buildFoldNode x c2 (prioritize_role x c2)
              (prioritize_text x c2) b).children ≠ .cons e .nil) →
            fold_single_childs d = d) := by
        intro b hid
        set N := buildFoldNode x c2 (prioritize_role x c2)
          (prioritize_text x c2) b with hN
        have hNch : N.children = c2.children := buildFoldNode_children ..
        constructor
        · match hcc2 : c2.children with
          | .nil => exact fold_single_childs_nil (by rw [hNch, hcc2])
          | .cons d .nil =>
            have hL := fold_singleton_ids c d hcc2
            have hNid : N.id ≠ none := by
              rw [hN, buildFoldNode_id]
              exact hid d hcc2
            obtain ⟨k, hk⟩ := Option.ne_none_iff_exists'.mp hL.2
            obtain ⟨jj, hjj⟩ := Option.ne_none_iff_exists'.mp hNid
            rw [fold_single_childs_one (by rw [hNch, hcc2]), foldSingleChild]
            simp only [hjj, hk]
          | .cons d1 (.cons d2 r) =>
            rw [fold_single_childs_many (by rw [hNch, hcc2]),
              foldChildrenList_id _ (fun d hd => ihc.2 d
                (by rw [hcc2]; exact hd)
                (by rw [hcc2]; simp)), ← hcc2, ← hNch,
              DomNode.eta]
        · intro d hd hne
          rw [hNch] at hd hne
          exact ihc.2 d hd hne
      rw [hfold1]
      rw [foldSingleChild]
      rcases hx : x.id with _ | i <;> rcases hcc : c2.id with _ | j <;>
        simp only [hx, hcc]
      · by_cases hrole : NodeCategory.listRoles.contains c2.get_role_str ∨
          NodeCategory.structuralRoles.contains c2.get_role_str
        · rw [if_pos hrole]
          exact hbuild false (fun d hdd =>
            absurd (fold_singleton_ids c d hdd).1 (by simp [hcc]))
        · rw [if_neg hrole]
          exact hbuild true (fun d hdd =>
            absurd (fold_singleton_ids c d hdd).1 (by simp [hcc]))
      · exact hbuild true (fun d hdd => by simp [hcc])
      · exact hbuild false (fun d hdd => by simp [hx])
      · -- refusal: the fold returned x itself
        have hfx : fold_single_childs x = x := by
          rw [hfold1, foldSingleChild]
          simp only [hx, hcc]
        constructor
        · exact hfx
        · intro d hd hne
          exact absurd hc (hne c)
    | .cons c1 (.cons c2 rest) =>
      have hfx : fold_single_childs x =
          .mk x.id x.type x.role x.text
            (foldChildrenList (DomNodeList.cons c1 (DomNodeList.cons c2 rest)))
            x.attributes x.computed_attributes := fold_single_childs_many hc
      have hstable : ∀ d ∈ (foldChildrenList
          (DomNodeList.cons c1 (DomNodeList.cons c2 rest))).toList,
          fold_single_childs d = d := by
        intro d hd
        rw [foldChildrenList_toList] at hd
        obtain ⟨e, he, rfl⟩ := List.mem_map.mp hd
        exact (ih e (by rw [hc]; exact he)).1
      constructor
      · rw [hfx]
        have hshape : (DomNode.mk x.id x.type x.role x.text
            (foldChildrenList (DomNodeList.cons c1 (DomNodeList.cons c2 rest)))
            x.attributes x.computed_attributes).children =
            DomNodeList.cons (fold_single_childs c1)
              (DomNodeList.cons (fold_single_childs c2)
                (foldChildrenList rest)) := by
          rw [DomNode.children, foldChildrenList, foldChildrenList]
        rw [fold_single_childs_many hshape]
        rw [← foldChildrenList, ← foldChildrenList]
        rw [foldChildrenList_id _ hstable]
        simp only [DomNode.id, DomNode.type, DomNode.role, DomNode.text,
          DomNode.attributes, DomNode.computed_attributes]
      · intro d hd _
        rw [hfx, DomNode.children] at hd
        exact hstable d hd

/-- C3: `fold_single_childs` is idempotent — folding an already-folded
tree changes nothing (id, role, text, type, attributes and children,
recursively). -/
theorem claim_C3 (t : DomNode) :
    fold_single_childs (fold_single_childs t) = fold_single_childs t :=
  (fold_idem_aux t).1

/-! ## `snapshot.py`: `BrowserSnapshot.subgraph_without` and its supporting
lemmas -/

/-- `str | ValueWithPlaceholder` from `votte-core/types.py`: either a plain
string or a pydantic secret wrapping the secret value (the placeholder is
only used for display). -/
inductive StrOrPlaceholder where
  | str (s : String)
  | placeholder (secret_value : String) (placeholder_value : String)
deriving DecidableEq, Repr

/-- `get_str_value` from `votte-core/types.py`: a plain string is returned
as is, a `ValueWithPlaceholder` yields its secret value. -/
def get_str_value : StrOrPlaceholder → String
  | .str s => s
  | .placeholder sv _ => sv

/-- Modelled from the spec: a symbolic node-bound action (`{id, role?,
value?, press_enter?}`).  The action dataclasses live in
`notte_core.actions`, outside the provided sources; `subgraph_without`
reads only the `id` field, and the resolver reads `id`, `role`,
`value.value` (a `str | ValueWithPlaceholder`), `press_enter` and
`selector`. -/
structure StepAction where
  id : String
  role : String
  value : Option StrOrPlaceholder
  press_enter : Option Bool
  selector : Option NodeSelectors
deriving DecidableEq, Repr

/-- Modelled from the spec: the typed, executable interaction actions the
resolver produces (Click, Fill, Check, SelectDropdownOption), each
carrying id, selector, label and the parameters the resolver fills in. -/
inductive InteractionAction where
  | click (id : String) (text_label : Option String)
      (selector : Option NodeSelectors) (press_enter : Option Bool)
  | fill (id : String) (value : String) (press_enter : Option Bool)
      (selector : Option NodeSelectors) (text_label : Option String)
  | check (id : String) (value : Bool) (press_enter : Option Bool)
      (selector : Option NodeSelectors) (text_label : Option String)
  | selectDropdownOption (id : String) (value : String)
      (press_enter : Option Bool) (selector : Option NodeSelectors)
      (text_label : Option String)
deriving DecidableEq, Repr

def InteractionAction.id : InteractionAction → String
  | .click i _ _ _ => i
  | .fill i _ _ _ _ => i
  | .check i _ _ _ _ => i
  | .selectDropdownOption i _ _ _ _ => i

/-- `BrowserSnapshot.subgraph_without`, modelled on the snapshot's
`dom_node` (the only state it reads; the Python wraps the result back
into a snapshot with `with_dom_node`).  With no actions and explicit
roles it delegates to `subtree_without`; otherwise it keeps the minimal
subtree whose nodes' subtree-id sets intersect the set of interactive ids
not covered by the given actions, returning `none` on an empty result. -/
def subgraph_without (dom_node : DomNode) (actions : List InteractionAction)
    (roles : Option (List String)) : Except String (Option DomNode) :=
  match roles, actions with
  | some rs, [] => (dom_node.subtree_without rs).map some
  | _, _ =>
    match dom_node.interaction_nodes with
    | .error e => .error e
    | .ok inodes =>
      let id_existing_actions := actions.map InteractionAction.id
      let failed_actions := (inodes.filterMap DomNode.id).filter
        (fun i => !(id_existing_actions.contains i))
      match dom_node.subtree_filter (fun node =>
        node.subtree_ids.any (fun i => failed_actions.contains i)) with
      | none => .ok none
      | some g => .ok (some g)

/-- A node with its children removed: the per-node data `subtree_filter`
preserves (id, type, role, text, attributes, computed attributes). -/
def DomNode.detached (n : DomNode) : DomNode :=
  .mk n.id n.type n.role n.text .nil n.attributes n.computed_attributes

theorem DomNode.detached_id (n : DomNode) : n.detached.id = n.id := rfl

theorem mem_subtreeIdsList {x : String} {cs : DomNodeList} :
    x ∈ DomNode.subtreeIdsList cs ↔ ∃ c ∈ cs.toList, x ∈ c.subtree_ids := by
  induction cs using DomNodeList.listInduction with
  | h0 => simp [DomNode.subtreeIdsList, DomNodeList.toList]
  | h1 c rest ih =>
    rw [subtreeIdsList_cons, List.mem_append, ih]
    constructor
    · rintro (hm | ⟨y, hy, hm⟩)
      · exact ⟨c, List.mem_cons_self c rest.toList, hm⟩
      · exact ⟨y, List.mem_cons_of_mem c hy, hm⟩
    · rintro ⟨y, hy, hm⟩
      rcases List.mem_cons.mp hy with rfl | hy
      · exact Or.inl hm
      · exact Or.inr ⟨y, hy, hm⟩

theorem subtree_ids_subset {m n : DomNode} (hm : m ∈ n.flatten) :
    ∀ x ∈ m.subtree_ids, x ∈ n.subtree_ids := by
  induction n using DomNode.inductionOn with
  | step n ih =>
    rw [DomNode.flatten_eq] at hm
    rcases List.mem_cons.mp hm with rfl | hm
    · exact fun x hx => hx
    · obtain ⟨c, hc, hmc⟩ := mem_flattenList.mp hm
      intro x hx
      rw [DomNode.subtree_ids_eq, List.mem_append, mem_subtreeIdsList]
      exact Or.inr ⟨c, hc, ih c hc hmc x hx⟩

theorem self_id_mem_subtree_ids {n : DomNode} {i : String}
    (h : n.id = some i) : i ∈ n.subtree_ids := by
  rw [DomNode.subtree_ids_eq, h, List.mem_append]
  exact Or.inl (List.mem_singleton.mpr rfl)

theorem is_interaction_id_ne_none {n : DomNode} (h : n.is_interaction) :
    n.id ≠ none := by
  rw [DomNode.is_interaction] at h
  intro hid
  rcases hr : NodeRole.from_value n.role with _ | v <;> rw [hr] at h
  · simp at h
  · rw [hid] at h; simp at h

theorem subtreeFilterChildren_toList (ft : DomNode → Bool) (cs : DomNodeList) :
    (DomNode.subtreeFilterChildren ft cs).toList =
      (cs.toList.map (DomNode.subtree_filter ft)).reduceOption := by
  induction cs using DomNodeList.listInduction with
  | h0 => rfl
  | h1 c rest ih =>
    rw [DomNode.subtreeFilterChildren]
    match hf : c.subtree_filter ft with
    | none =>
      rw [ih]
      simp [DomNodeList.toList, hf, List.reduceOption]
    | some fc =>
      rw [DomNodeList.toList, ih]
      simp [DomNodeList.toList, hf, List.reduceOption]

/-- The filter/flatten characterisation of `subtree_filter`: for a
predicate that is downward-false (a failing node has no passing
descendants) and witnessed (a passing node carries an id or has a passing
child), an empty result means no node passes, and a non-empty result
contains exactly the passing nodes of the original tree, children
replaced (compared via `detached`), in document order. -/
theorem subtree_filter_flatten (ft : DomNode → Bool) (t : DomNode)
    (Hmono : ∀ n ∈ t.flatten, ft n = false → ∀ m ∈ n.flatten, ft m = false)
    (Hwit : ∀ n ∈ t.flatten, ft n = true →
      n.id ≠ none ∨ ∃ c ∈ n.children.toList, ft c = true) :
    (t.subtree_filter ft = none → t.flatten.filter ft = []) ∧
    (∀ g, t.subtree_filter ft = some g →
      g.flatten.map DomNode.detached =
        (t.flatten.filter ft).map DomNode.detached) := by
  induction t using DomNode.inductionOn with
  | step t ih =>
    have hsub : ∀ c ∈ t.children.toList,
        (c.subtree_filter ft = none → c.flatten.filter ft = []) ∧
        (∀ g, c.subtree_filter ft = some g →
          g.flatten.map DomNode.detached =
            (c.flatten.filter ft).map DomNode.detached) := by
      intro c hc
      refine ih c hc ?_ ?_
      · exact fun n hn => Hmono n (DomNode.mem_flatten_of_child hc hn)
      · exact fun n hn => Hwit n (DomNode.mem_flatten_of_child hc hn)
    have hchildren : (DomNode.flattenList
        (DomNode.subtreeFilterChildren ft t.children)).map DomNode.detached =
        ((DomNode.flattenList t.children).filter ft).map DomNode.detached := by
      have key : ∀ cs : DomNodeList, (∀ c ∈ cs.toList,
          (c.subtree_filter ft = none → c.flatten.filter ft = []) ∧
          (∀ g, c.subtree_filter ft = some g →
            g.flatten.map DomNode.detached =
              (c.flatten.filter ft).map DomNode.detached)) →
          (DomNode.flattenList (DomNode.subtreeFilterChildren ft cs)).map
            DomNode.detached =
          ((DomNode.flattenList cs).filter ft).map DomNode.detached := by
        intro cs
        induction cs using DomNodeList.listInduction with
        | h0 => intro _; rfl
        | h1 c rest ihr =>
          intro hcs
          have hrest := ihr (fun y hy => hcs y (List.mem_cons_of_mem c hy))
          have hd := hcs c (List.mem_cons_self c rest.toList)
          rw [DomNode.subtreeFilterChildren, DomNode.flattenList,
            List.filter_append, List.map_append]
          match hf : c.subtree_filter ft with
          | none =>
            rw [hd.1 hf]
            simpa using hrest
          | some gc =>
            rw [DomNode.flattenList, List.map_append, hrest, hd.2 gc hf]
          
      exact key t.children hsub
    by_cases hft : ft t
    · constructor
      · intro hnone
        exfalso
        rw [DomNode.subtree_filter_eq] at hnone
        simp only [hft, Bool.not_true, Bool.false_eq_true, if_false] at hnone
        by_cases hdrop : t.id = none ∧
            (DomNode.subtreeFilterChildren ft t.children).isEmpty ∧
            pyStrip t.text = ""
        · rcases Hwit t t.self_mem_flatten hft with hid | ⟨c, hc, hfc⟩
          · exact hid hdrop.1
          · -- a passing child survives, so the surviving children are
            -- not empty
            rcases (hsub c hc) with ⟨hcn, hcs⟩
            match hcf : c.subtree_filter ft with
            | none =>
              have := hcn hcf
              have hcmem : c ∈ c.flatten.filter ft := by
                rw [List.mem_filter]
                exact ⟨c.self_mem_flatten, hfc⟩
              rw [this] at hcmem
              simp at hcmem
            | some gc =>
              have hmm : gc ∈ (DomNode.subtreeFilterChildren ft
                  t.children).toList := by
                rw [subtreeFilterChildren_toList]
                rw [List.reduceOption_mem_iff]
                exact List.mem_map.mpr ⟨c, hc, hcf⟩
              have := hdrop.2.1
              match hx : DomNode.subtreeFilterChildren ft t.children with
              | .nil => rw [hx] at hmm; simp [DomNodeList.toList] at hmm
              | .cons a b => rw [hx] at this; simp [DomNodeList.isEmpty] at this
        · rw [if_neg hdrop] at hnone
          simp at hnone
      · intro g hg
        rw [DomNode.subtree_filter_eq] at hg
        simp only [hft, Bool.not_true, Bool.false_eq_true, if_false] at hg
        by_cases hdrop : t.id = none ∧
            (DomNode.subtreeFilterChildren ft t.children).isEmpty ∧
            pyStrip t.text = ""
        · rw [if_pos hdrop] at hg; simp at hg
        · rw [if_neg hdrop] at hg
          have hgeq := (Option.some_injective _ hg).symm
          subst hgeq
          have h1 : (DomNode.mk t.id t.type t.role t.text
              (DomNode.subtreeFilterChildren ft t.children) t.attributes
              t.computed_attributes).flatten =
              DomNode.mk t.id t.type t.role t.text
                (DomNode.subtreeFilterChildren ft t.children) t.attributes
                t.computed_attributes ::
                DomNode.flattenList
                  (DomNode.subtreeFilterChildren ft t.children) := rfl
          have h2 : t.flatten.filter ft =
              t :: (DomNode.flattenList t.children).filter ft := by
            rw [DomNode.flatten_eq t, List.filter_cons, hft]
            rfl
          rw [h1, h2, List.map_cons, List.map_cons, hchildren]
          rfl
    · have hfalse : ft t = false := by simpa using hft
      have hnone : t.subtree_filter ft = none := by
        rw [DomNode.subtree_filter_eq]
        simp [hfalse]
      constructor
      · intro _
        rw [List.filter_eq_nil_iff]
        intro m hm
        rw [Hmono t t.self_mem_flatten hfalse m hm]
        simp
      · intro g hg
        rw [hnone] at hg
        simp at hg

theorem exceptMapM_interaction (l : List DomNode)
    (h : ∀ m ∈ l, m.is_interaction ∧ m.type = NodeType.interaction) :
    ∃ ins, exceptMapM DomNode.to_interaction_node l = .ok ins ∧
      ins.filterMap DomNode.id = l.filterMap DomNode.id := by
  induction l with
  | nil => exact ⟨[], rfl, rfl⟩
  | cons m rest ih =>
    obtain ⟨hint, hty⟩ := h m (List.mem_cons_self m rest)
    obtain ⟨i, hi⟩ := Option.ne_none_iff_exists'.mp
      (is_interaction_id_ne_none hint)
    obtain ⟨ins, hins, hids⟩ := ih (fun x hx => h x (List.mem_cons_of_mem m hx))
    have hconv : m.to_interaction_node = .ok (DomNode.mk m.id
        NodeType.interaction m.role (m.inner_text 3) .nil m.attributes
        m.computed_attributes) := by
      rw [DomNode.to_interaction_node, if_neg (by rw [hty]; simp), hi]
    refine ⟨DomNode.mk m.id NodeType.interaction m.role (m.inner_text 3)
      .nil m.attributes m.computed_attributes :: ins, ?_, ?_⟩
    · rw [exceptMapM, hconv, hins]
    · rw [List.filterMap_cons, List.filterMap_cons]
      cases hmi : m.id with
      | none => simp [hmi, DomNode.id, hids]
      | some j => simp [hmi, DomNode.id, hids]

/-- Under the interaction-node well-formedness invariant,
`interaction_nodes` does not raise, and the converted nodes carry exactly
the tree's interactive ids. -/
theorem interaction_nodes_of_wf (t : DomNode) (h : t.WellFormed) :
    ∃ ins, t.interaction_nodes = .ok ins ∧
      ins.filterMap DomNode.id = t.interactionIds := by
  rw [DomNode.interaction_nodes, DomNode.interactionIds]
  refine exceptMapM_interaction _ (fun m hm => ?_)
  rw [List.mem_filter] at hm
  exact ⟨hm.2, h m hm.1 hm.2⟩

theorem mem_interactionIds {t : DomNode} {i : String} :
    i ∈ t.interactionIds ↔
      ∃ m ∈ t.flatten, m.is_interaction ∧ m.id = some i := by
  rw [DomNode.interactionIds]
  simp only [List.mem_filterMap, List.mem_filter]
  constructor
  · rintro ⟨m, ⟨hm, hint⟩, hid⟩
    exact ⟨m, hm, hint, hid⟩
  · rintro ⟨m, hm, hint, hid⟩
    exact ⟨m, ⟨hm, hint⟩, hid⟩

theorem only_failed_mono (failed : List String) {n m : DomNode}
    (hm : m ∈ n.flatten)
    (hn : (n.subtree_ids.any (fun i => failed.contains i)) = false) :
    (m.subtree_ids.any (fun i => failed.contains i)) = false := by
  rw [List.any_eq_false] at hn ⊢
  exact fun x hx => hn x (subtree_ids_subset hm x hx)

theorem only_failed_wit (failed : List String) {n : DomNode}
    (hn : (n.subtree_ids.any (fun i => failed.contains i)) = true) :
    n.id ≠ none ∨ ∃ c ∈ n.children.toList,
      (c.subtree_ids.any (fun i => failed.contains i)) = true := by
  rcases hid : n.id with _ | i
  · obtain ⟨x, hx, hfx⟩ := List.any_eq_true.mp hn
    rw [DomNode.subtree_ids_eq, hid] at hx
    simp only [idList, List.nil_append] at hx
    obtain ⟨c, hc, hxc⟩ := mem_subtreeIdsList.mp hx
    exact Or.inr ⟨c, hc, List.any_eq_true.mpr ⟨x, hxc, hfx⟩⟩
  · exact Or.inl (by simp)

theorem detached_eq_fields {a b : DomNode} (h : a.detached = b.detached) :
    a.id = b.id ∧ a.type = b.type ∧ a.role = b.role := by
  rw [DomNode.detached, DomNode.detached, DomNode.mk.injEq] at h
  exact ⟨h.1, h.2.1, h.2.2.1⟩

theorem is_interaction_of_detached_eq {a b : DomNode}
    (h : a.detached = b.detached) : a.is_interaction = b.is_interaction := by
  obtain ⟨h1, h2, h3⟩ := detached_eq_fields h
  rw [DomNode.is_interaction, DomNode.is_interaction, h1, h2, h3]

theorem interactionIds_of_detached_eq : ∀ (l1 l2 : List DomNode),
    l1.map DomNode.detached = l2.map DomNode.detached →
    (l1.filter (fun m => m.is_interaction)).filterMap DomNode.id =
      (l2.filter (fun m => m.is_interaction)).filterMap DomNode.id := by
  intro l1
  induction l1 with
  | nil =>
    intro l2 h
    rw [List.map_nil] at h
    rw [List.eq_nil_of_map_eq_nil h.symm]
  | cons a rest ih =>
    intro l2 h
    match l2 with
    | [] => rw [List.map_cons, List.map_nil] at h; exact absurd h (by simp)
    | b :: r2 =>
      rw [List.map_cons, List.map_cons, List.cons.injEq] at h
      have hfields := detached_eq_fields h.1
      rw [List.filter_cons, List.filter_cons,
        is_interaction_of_detached_eq h.1]
      by_cases hb : b.is_interaction
      · rw [if_pos (by rw [hb]), if_pos (by rw [hb]), List.filterMap_cons,
          List.filterMap_cons, hfields.1, ih r2 h.2]
      · rw [if_neg (by simpa using hb), if_neg (by simpa using hb), ih r2 h.2]

/-- C4 (amended): on snapshots satisfying the interaction-node invariant
(`is_interaction` nodes have type `interaction`, as `InteractionDomNode`
enforces), `subgraph_without actions roles=None` returns `None` exactly
when every interactive id is covered by the actions; and with no actions
(and at least one interactive id — otherwise the previous part yields
`None`) it returns a subtree carrying exactly the tree's interactive ids,
whose kept nodes are exactly those whose subtree-id set meets the
uncovered-id set. -/
theorem claim_C4 (t : DomNode) (acts : List InteractionAction)
    (hwf : t.WellFormed) :
    (subgraph_without t acts none = .ok none ↔
      ∀ i ∈ t.interactionIds, i ∈ acts.map InteractionAction.id) ∧
    (acts = [] → t.interactionIds ≠ [] →
      ∃ sub, subgraph_without t [] none = .ok (some sub) ∧
        sub.interactionIds = t.interactionIds ∧
        sub.flatten.map DomNode.detached =
          (t.flatten.filter (fun m => m.subtree_ids.any
            (fun i => t.interactionIds.contains i))).map DomNode.detached) := by
  obtain ⟨ins, hins, hids⟩ := interaction_nodes_of_wf t hwf
  have hsg : ∀ (as : List InteractionAction), subgraph_without t as none =
      (match t.subtree_filter (fun node => node.subtree_ids.any
        (fun i => (t.interactionIds.filter
          (fun i => !((as.map InteractionAction.id).contains i))).contains i))
        with
      | none => Except.ok none
      | some g => Except.ok (some g)) := by
    intro as
    cases as with
    | nil => simp only [subgraph_without, hins, hids]
    | cons a r => simp only [subgraph_without, hins, hids]
  constructor
  · rw [hsg acts]
    constructor
    · intro hok i hi
      by_contra hni
      have hifailed : (t.interactionIds.filter
          (fun i => !((acts.map InteractionAction.id).contains i))).contains i
          = true := by
        rw [List.elem_iff, List.mem_filter]
        refine ⟨hi, ?_⟩
        simp only [Bool.not_eq_eq_eq_not, Bool.not_true]
        rw [← Bool.not_eq_true, List.elem_iff]
        exact hni
      obtain ⟨m, hm, hmint, hmid⟩ := mem_interactionIds.mp hi
      have hftm : (m.subtree_ids.any (fun j => (t.interactionIds.filter
          (fun j => !((acts.map InteractionAction.id).contains j))).contains j))
          = true :=
        List.any_eq_true.mpr ⟨i, self_id_mem_subtree_ids hmid, hifailed⟩
      have hftt : (t.subtree_ids.any (fun j => (t.interactionIds.filter
          (fun j => !((acts.map InteractionAction.id).contains j))).contains j))
          = true := by
        obtain ⟨x, hx, hfx⟩ := List.any_eq_true.mp hftm
        exact List.any_eq_true.mpr ⟨x, subtree_ids_subset hm x hx, hfx⟩
      have hdich := subtree_filter_flatten (fun node => node.subtree_ids.any
          (fun j => (t.interactionIds.filter
            (fun j => !((acts.map InteractionAction.id).contains j))).contains
              j)) t
        (fun n _ hf m hm2 => only_failed_mono _ hm2 hf)
        (fun n _ hf => only_failed_wit _ hf)
      match hfil : t.subtree_filter (fun node => node.subtree_ids.any
          (fun j => (t.interactionIds.filter
            (fun j => !((acts.map InteractionAction.id).contains j))).contains j))
          with
      | none =>
        have hempty := hdich.1 hfil
        have hmemt : t ∈ t.flatten.filter (fun node => node.subtree_ids.any
            (fun j => (t.interactionIds.filter
              (fun j => !((acts.map InteractionAction.id).contains
                j))).contains j)) := by
          rw [List.mem_filter]
          exact ⟨t.self_mem_flatten, hftt⟩
        rw [hempty] at hmemt
        simp at hmemt
      | some g => rw [hfil] at hok; simp at hok
    · intro hcov
      have hfailed : t.interactionIds.filter
          (fun i => !((acts.map InteractionAction.id).contains i)) = [] := by
        rw [List.filter_eq_nil_iff]
        intro i hi
        simp only [Bool.not_eq_eq_eq_not, Bool.not_true, Bool.not_eq_false]
        rw [List.elem_iff]
        exact hcov i hi
      have hfalse : ∀ n : DomNode, (n.subtree_ids.any
          (fun i => (t.interactionIds.filter
            (fun i => !((acts.map InteractionAction.id).contains i))).contains
              i)) = false := by
        intro n
        rw [List.any_eq_false]
        intro x _
        rw [hfailed]
        simp
      rw [show t.subtree_filter (fun node => node.subtree_ids.any
          (fun i => (t.interactionIds.filter
            (fun i => !((acts.map InteractionAction.id).contains i))).contains
              i)) = none from by
        rw [DomNode.subtree_filter_eq, hfalse t]
        simp]
  · rintro rfl hne
    rw [hsg []]
    simp only [List.map_nil]
    have hfailed : t.interactionIds.filter
        (fun i => !(([] : List String).contains i)) = t.interactionIds := by
      rw [List.filter_eq_self]
      intro i _
      simp
    simp only [hfailed]
    have hdich := subtree_filter_flatten (fun node => node.subtree_ids.any
        (fun i => t.interactionIds.contains i)) t
      (fun n _ hf m hm2 => only_failed_mono _ hm2 hf)
      (fun n _ hf => only_failed_wit _ hf)
    obtain ⟨i0, hi0⟩ := List.exists_mem_of_ne_nil _ hne
    obtain ⟨m0, hm0, hm0int, hm0id⟩ := mem_interactionIds.mp hi0
    have hftt : (t.subtree_ids.any
        (fun i => t.interactionIds.contains i)) = true := by
      refine List.any_eq_true.mpr ⟨i0,
        subtree_ids_subset hm0 i0 (self_id_mem_subtree_ids hm0id), ?_⟩
      rw [List.elem_iff]
      exact hi0
    match hfil : t.subtree_filter (fun node => node.subtree_ids.any
        (fun i => t.interactionIds.contains i)) with
    | none =>
      exfalso
      have hempty := hdich.1 hfil
      have : t ∈ t.flatten.filter (fun node => node.subtree_ids.any
          (fun i => t.interactionIds.contains i)) := by
        rw [List.mem_filter]
        exact ⟨t.self_mem_flatten, hftt⟩
      rw [hempty] at this
      simp at this
    | some sub =>
      refine ⟨sub, rfl, ?_, ?_⟩
      · have hkeys := hdich.2 sub hfil
        have htrans := interactionIds_of_detached_eq sub.flatten
          (t.flatten.filter (fun node => node.subtree_ids.any
            (fun i => t.interactionIds.contains i))) hkeys
        rw [DomNode.interactionIds, htrans, List.filter_comm]
        rw [DomNode.interactionIds]
        congr 1
        rw [List.filter_eq_self]
        intro m hm
        rw [List.mem_filter] at hm
        obtain ⟨j, hj⟩ := Option.ne_none_iff_exists'.mp
          (is_interaction_id_ne_none hm.2)
        have hjmem : j ∈ t.interactionIds :=
          mem_interactionIds.mpr ⟨m, hm.1, hm.2, hj⟩
        refine List.any_eq_true.mpr ⟨j, self_id_mem_subtree_ids hj, ?_⟩
        rw [List.elem_iff]
        exact hjmem
      · exact hdich.2 sub hfil

/-- A constructible snapshot tree violating the interaction-node type
invariant: `is_interaction` holds through the role category while the
node type is `other`, so `to_interaction_node` raises inside
`subgraph_without`. -/
def exC4 : DomNode :=
  .mk (some "B1") .other "button" "x" .nil none comp0

/-- A well-formed one-button snapshot tree for the C4 witness. -/
def exC4w : DomNode :=
  .mk none .other "group" ""
    (.ofList [.mk (some "B1") .interaction "button" "hi" .nil none comp0])
    none comp0

/-- C4, counterexample: on a constructible snapshot whose interactive node
has a non-`interaction` type, `subgraph_without` raises instead of
returning the uncovered subtree, although the uncovered interactive id set
(`{B1}`) is non-empty. -/
theorem claim_C4_counterexample :
    subgraph_without exC4 [] none =
      .error "DomNode must be an interaction node to be converted" ∧
    exC4.interactionIds = ["B1"] :=
  ⟨rfl, rfl⟩

/-- C4, witness: full coverage yields `None` on a concrete snapshot. -/
theorem claim_C4_witness :
    subgraph_without exC4w [InteractionAction.click "B1" none none none]
      none = .ok none :=
  ((claim_C4 exC4w [InteractionAction.click "B1" none none none]
    (by unfold DomNode.WellFormed; decide)).1).mpr (by decide)

/-! ## Claim C10: `find` agrees with `subtree_ids` -/

theorem find_spec (t : DomNode) (s : String)
    (hwf : ∀ m ∈ t.flatten, m.is_interaction → m.type = NodeType.interaction) :
    ∃ r, t.find s = .ok r ∧ (r.isSome ↔ s ∈ t.subtree_ids) ∧
      ∀ n, r = some n → n.id = some s := by
  induction t using DomNode.inductionOn with
  | step t ih =>
    have hch : ∀ c ∈ t.children.toList, ∃ r, c.find s = .ok r ∧
        (r.isSome ↔ s ∈ c.subtree_ids) ∧ ∀ n, r = some n → n.id = some s :=
      fun c hc => ih c hc
        (fun m hm => hwf m (DomNode.mem_flatten_of_child hc hm))
    have hlist : ∀ cs : DomNodeList, (∀ c ∈ cs.toList, ∃ r, c.find s = .ok r ∧
        (r.isSome ↔ s ∈ c.subtree_ids) ∧ ∀ n, r = some n → n.id = some s) →
        ∃ r, DomNode.findInChildren cs s = .ok r ∧
          (r.isSome ↔ s ∈ DomNode.subtreeIdsList cs) ∧
          ∀ n, r = some n → n.id = some s := by
      intro cs
      induction cs using DomNodeList.listInduction with
      | h0 =>
        intro _
        refine ⟨none, rfl, ?_, by simp⟩
        simp [DomNode.subtreeIdsList]
      | h1 c rest ihr =>
        intro hcs
        obtain ⟨rc, hrc, hrci, hrcid⟩ := hcs c (List.mem_cons_self c rest.toList)
        obtain ⟨rr, hrr, hrri, hrrid⟩ :=
          ihr (fun y hy => hcs y (List.mem_cons_of_mem c hy))
        match rc, hrc with
        | some n, hrc =>
          refine ⟨some n, ?_, ?_, ?_⟩
          · rw [DomNode.findInChildren, hrc]
          · simp only [Option.isSome_some, true_iff]
            rw [subtreeIdsList_cons, List.mem_append]
            exact Or.inl (hrci.mp (by simp))
          · intro m hm
            exact hrcid m hm
        | none, hrc =>
          refine ⟨rr, ?_, ?_, hrrid⟩
          · rw [DomNode.findInChildren, hrc, hrr]
          · rw [hrri, subtreeIdsList_cons, List.mem_append]
            constructor
            · exact Or.inr
            · rintro (hl | hr)
              · exact absurd (hrci.mpr hl) (by simp)
              · exact hr
    rw [DomNode.find_eq]
    by_cases hid : t.id = some s
    · rw [if_pos hid]
      by_cases hint : t.is_interaction
      · rw [if_pos hint]
        have hty : t.type = NodeType.interaction :=
          hwf t t.self_mem_flatten hint
        have hconv : t.to_interaction_node = .ok (DomNode.mk t.id
            NodeType.interaction t.role (t.inner_text 3) .nil t.attributes
            t.computed_attributes) := by
          rw [DomNode.to_interaction_node, if_neg (by rw [hty]; simp), hid]
        rw [hconv]
        refine ⟨some (DomNode.mk t.id NodeType.interaction t.role
          (t.inner_text 3) .nil t.attributes t.computed_attributes), rfl,
          ?_, ?_⟩
        · simp only [Option.isSome_some, true_iff]
          exact self_id_mem_subtree_ids hid
        · intro n hn
          rw [← Option.some_injective _ hn]
          exact hid
      · rw [if_neg hint]
        refine ⟨some t, rfl, ?_, ?_⟩
        · simp only [Option.isSome_some, true_iff]
          exact self_id_mem_subtree_ids hid
        · intro n hn
          rw [← Option.some_injective _ hn]
          exact hid
    · rw [if_neg hid]
      obtain ⟨r, hr, hri, hrid⟩ := hlist t.children hch
      refine ⟨r, hr, ?_, hrid⟩
      rw [hri, DomNode.subtree_ids_eq, List.mem_append]
      constructor
      · exact Or.inr
      · rintro (hl | hrr)
        · exfalso
          rcases hti : t.id with _ | j
          · rw [hti] at hl; simp [idList] at hl
          · rw [hti] at hl
            simp only [idList, List.mem_singleton] at hl
            exact hid (by rw [hti, hl])
        · exact hrr

/-- The same malformed-but-constructible node as for C4: `find` raises on
it. -/
def exC10 : DomNode :=
  .mk (some "B1") .other "button" "x" .nil none comp0

/-- C10, counterexample: `find` raises (because `to_interaction_node`
refuses the node's type) although the looked-up id is in `subtree_ids`,
so `find` does not return a node exactly when the id is present. -/
theorem claim_C10_counterexample :
    exC10.find "B1" =
      .error "DomNode must be an interaction node to be converted" ∧
    exC10.subtree_ids = ["B1"] :=
  ⟨rfl, rfl⟩

/-- C10 (amended): on trees satisfying the interaction-node type
invariant, `find` returns a node exactly when the id occurs in the
subtree-id list fixed at construction (own id followed by the children's
lists, restated by the last conjunct), and any found node carries the
looked-up id. -/
theorem claim_C10 (t : DomNode) (s : String) (hwf : t.WellFormed) :
    (∃ r, t.find s = .ok r ∧ (r.isSome ↔ s ∈ t.subtree_ids) ∧
      ∀ n, r = some n → n.id = some s) ∧
    (∀ n : DomNode, n.subtree_ids =
      idList n.id ++ DomNode.subtreeIdsList n.children) :=
  ⟨find_spec t s hwf, fun n => DomNode.subtree_ids_eq n⟩

/-- A well-formed tree for the C10 witness. -/
def exC10w : DomNode :=
  .mk none .other "group" ""
    (.ofList [.mk (some "B1") .interaction "button" "hi" .nil none comp0])
    none comp0

/-- C10, witness: the amended theorem at a concrete tree and id. -/
theorem claim_C10_witness :
    ∃ r, exC10w.find "B1" = .ok r ∧
      (r.isSome ↔ "B1" ∈ exC10w.subtree_ids) ∧
      ∀ n, r = some n → n.id = some "B1" :=
  (claim_C10 exC10w "B1" (by unfold DomNode.WellFormed; decide)).1

/-! ## `id_generation.py`: `generate_sequential_ids` -/

mutual

/-- `DOMBaseNode` from `notte-browser/dom/types.py`, restricted to the
fields `generate_sequential_ids` reads: the derived `role` property (a
string), `highlight_index`, the `is_interactive` flag of element nodes,
and the children (again with the list spine explicit).  `notte_id` is
`init=False, default=None` in the dataclass, so input trees carry no ids;
the generator's in-place assignment is modelled by returning an
id-annotated copy (`IdDomNode`). -/
inductive DOMBaseNode where
  | mk (role : String) (highlight_index : Option Nat) (is_interactive : Bool)
      (children : DOMBaseNodeList)

/-- A Python `list[DOMBaseNode]`. -/
inductive DOMBaseNodeList where
  | nil
  | cons (head : DOMBaseNode) (tail : DOMBaseNodeList)

end

mutual

/-- A `DOMBaseNode` after the generator ran: same fields plus the assigned
`notte_id`. -/
inductive IdDomNode where
  | mk (notte_id : Option String) (role : String)
      (highlight_index : Option Nat) (is_interactive : Bool)
      (children : IdDomNodeList)

/-- A Python `list` of id-annotated nodes. -/
inductive IdDomNodeList where
  | nil
  | cons (head : IdDomNode) (tail : IdDomNodeList)

end

def DOMBaseNode.role : DOMBaseNode → String
  | .mk r _ _ _ => r

def DOMBaseNode.highlight_index : DOMBaseNode → Option Nat
  | .mk _ hi _ _ => hi

def DOMBaseNode.is_interactive : DOMBaseNode → Bool
  | .mk _ _ ii _ => ii

def DOMBaseNode.children : DOMBaseNode → DOMBaseNodeList
  | .mk _ _ _ cs => cs

def DOMBaseNodeList.ofList : List DOMBaseNode → DOMBaseNodeList
  | [] => .nil
  | c :: rest => .cons c (DOMBaseNodeList.ofList rest)

def IdDomNode.notte_id : IdDomNode → Option String
  | .mk i _ _ _ _ => i

def IdDomNode.role : IdDomNode → String
  | .mk _ r _ _ _ => r

def IdDomNode.highlight_index : IdDomNode → Option Nat
  | .mk _ _ hi _ _ => hi

def IdDomNode.is_interactive : IdDomNode → Bool
  | .mk _ _ _ ii _ => ii

mutual

/-- Preorder listing of an id-annotated tree. -/
def IdDomNode.flatten : IdDomNode → List IdDomNode
  | .mk i r hi ii cs => .mk i r hi ii cs :: IdDomNode.flattenList cs

def IdDomNode.flattenList : IdDomNodeList → List IdDomNode
  | .nil => []
  | .cons c rest => c.flatten ++ IdDomNode.flattenList rest

end

/-- The assigned ids of an id-annotated tree, in depth-first (document)
order. -/
def IdDomNode.assignedIds (t : IdDomNode) : List String :=
  t.flatten.filterMap IdDomNode.notte_id

mutual

/-- `generate_sequential_ids` relative to a counter state.  The Python
uses an explicit stack, pushing the reversed children after the node, so
nodes are visited in depth-first preorder; the `defaultdict(lambda: 1)`
of per-prefix counters is the function state threaded through.  A role
that `NodeRole.from_value` does not recognise is only logged (no id); a
recognised role with a non-null highlight index gets
`{short_id}{counter}` and bumps that counter; `short_id(force_id=True)`
returning `None` raises `ValueError` (provably unreachable). -/
def genSeq : DOMBaseNode → (String → Nat) →
    Except String (IdDomNode × (String → Nat))
  | .mk role hi ii cs, cnt =>
    match NodeRole.from_value role with
    | none =>
      match genSeqList cs cnt with
      | .error e => .error e
      | .ok (cs2, cnt2) => .ok (.mk none role hi ii cs2, cnt2)
    | some canonical =>
      match hi with
      | none =>
        match genSeqList cs cnt with
        | .error e => .error e
        | .ok (cs2, cnt2) => .ok (.mk none role hi ii cs2, cnt2)
      | some _ =>
        match NodeRole.short_id canonical true with
        | some p =>
          match genSeqList cs (fun q => if q = p then cnt p + 1 else cnt q)
            with
          | .error e => .error e
          | .ok (cs2, cnt2) =>
            .ok (.mk (some (p ++ natToStr (cnt p))) role hi ii cs2, cnt2)
        | none => .error "Role was incorrectly converted from raw Dom Node"

/-- The stack continuation over the children, left to right. -/
def genSeqList : DOMBaseNodeList → (String → Nat) →
    Except String (IdDomNodeList × (String → Nat))
  | .nil, cnt => .ok (.nil, cnt)
  | .cons c rest, cnt =>
    match genSeq c cnt with
    | .error e => .error e
    | .ok (c2, cnt1) =>
      match genSeqList rest cnt1 with
      | .error e => .error e
      | .ok (rest2, cnt2) => .ok (.cons c2 rest2, cnt2)

end

/-- `generate_sequential_ids`: run the traversal with all per-prefix
counters starting at 1. -/
def generate_sequential_ids (root : DOMBaseNode) : Except String IdDomNode :=
  (genSeq root (fun _ => 1)).map Prod.fst

mutual

/-- Ghost run of the generator recording the (prefix, counter) pairs it
assigns, in assignment order, together with the final counters. -/
def genPairs : DOMBaseNode → (String → Nat) →
    List (String × Nat) × (String → Nat)
  | .mk role hi _ cs, cnt =>
    match NodeRole.from_value role with
    | none => genPairsList cs cnt
    | some canonical =>
      match hi with
      | none => genPairsList cs cnt
      | some _ =>
        match NodeRole.short_id canonical true with
        | some p =>
          match genPairsList cs (fun q => if q = p then cnt p + 1 else cnt q)
            with
          | (rest, cnt2) => ((p, cnt p) :: rest, cnt2)
        | none => genPairsList cs cnt

/-- Ghost run over a child list. -/
def genPairsList : DOMBaseNodeList → (String → Nat) →
    List (String × Nat) × (String → Nat)
  | .nil, cnt => ([], cnt)
  | .cons c rest, cnt =>
    match genPairs c cnt with
    | (ps, cnt1) =>
      match genPairsList rest cnt1 with
      | (ps2, cnt2) => (ps ++ ps2, cnt2)

end

/-- The id string assigned for a (prefix, counter) pair. -/
def idStr (pk : String × Nat) : String :=
  pk.1 ++ natToStr pk.2

theorem short_id_force_isSome (v : String) :
    (NodeRole.short_id v true).isSome := by
  rw [NodeRole.short_id]
  split
  · rfl
  · split
    · rfl
    · split
      · rfl
      · split
        · rfl
        · split
          · rfl
          · rfl

theorem short_id_mem {v p : String} (h : NodeRole.short_id v true = some p) :
    p ∈ ["L", "B", "I", "F", "O", "M"] := by
  rw [NodeRole.short_id] at h
  split at h
  · simp_all
  · split at h
    · simp_all
    · split at h
      · simp_all
      · split at h
        · simp_all
        · split at h
          · simp_all
          · split at h <;> simp_all

mutual

/-- Forget the assigned ids, recovering the input node. -/
def IdDomNode.erase : IdDomNode → DOMBaseNode
  | .mk _ r hi ii cs => .mk r hi ii (IdDomNode.eraseList cs)

def IdDomNode.eraseList : IdDomNodeList → DOMBaseNodeList
  | .nil => .nil
  | .cons c rest => .cons c.erase (IdDomNode.eraseList rest)

end

/-- Invariant carried by `genSeq` for a node, relative to the incoming
counters `cnt`: the run succeeds, returns the same tree annotated, the
assigned ids (in document order) are exactly the ghost pairs rendered by
`idStr`, a node carries an id exactly when its role is recognised and its
highlight index is non-null, every id has the form `prefix ++ digits k`
with `k` at least the incoming counter of that prefix, and counters only
grow. -/
def GenSpecNode (t : DOMBaseNode) (cnt : String → Nat) : Prop :=
  ∃ t2, genSeq t cnt = Except.ok (t2, (genPairs t cnt).2) ∧
    t2.erase = t ∧
    t2.flatten.filterMap IdDomNode.notte_id = (genPairs t cnt).1.map idStr ∧
    (∀ m ∈ t2.flatten,
      m.notte_id.isSome ↔
        ((NodeRole.from_value m.role).isSome ∧ m.highlight_index.isSome)) ∧
    (∀ m ∈ t2.flatten, ∀ s, m.notte_id = some s →
      ∃ canon p k, NodeRole.from_value m.role = some canon ∧
        NodeRole.short_id canon true = some p ∧ cnt p ≤ k ∧
        s = p ++ natToStr k) ∧
    (∀ q, cnt q ≤ (genPairs t cnt).2 q)

/-- The same invariant for the traversal of a child list. -/
def GenSpecList (cs : DOMBaseNodeList) (cnt : String → Nat) : Prop :=
  ∃ cs2, genSeqList cs cnt = Except.ok (cs2, (genPairsList cs cnt).2) ∧
    IdDomNode.eraseList cs2 = cs ∧
    (IdDomNode.flattenList cs2).filterMap IdDomNode.notte_id
      = (genPairsList cs cnt).1.map idStr ∧
    (∀ m ∈ IdDomNode.flattenList cs2,
      m.notte_id.isSome ↔
        ((NodeRole.from_value m.role).isSome ∧ m.highlight_index.isSome)) ∧
    (∀ m ∈ IdDomNode.flattenList cs2, ∀ s, m.notte_id = some s →
      ∃ canon p k, NodeRole.from_value m.role = some canon ∧
        NodeRole.short_id canon true = some p ∧ cnt p ≤ k ∧
        s = p ++ natToStr k) ∧
    (∀ q, cnt q ≤ (genPairsList cs cnt).2 q)

mutual

theorem genSeq_spec : ∀ (t : DOMBaseNode) (cnt : String → Nat),
    GenSpecNode t cnt
  | .mk role hi ii cs, cnt => by
    unfold GenSpecNode
    obtain ⟨cs0, hrun, hers, hids, hiff, hform, hmono⟩ :=
      genSeqList_spec cs cnt
    rcases hfv : NodeRole.from_value role with _ | canonical
    · refine ⟨.mk none role hi ii cs0, ?_, ?_, ?_, ?_, ?_, ?_⟩
      · simp only [genSeq, genPairs, hfv, hrun]
      · simp only [IdDomNode.erase, hers]
      · simp only [genPairs, hfv, IdDomNode.flatten, List.filterMap_cons,
          IdDomNode.notte_id, hids]
      · intro m hm
        rcases List.mem_cons.mp hm with rfl | hm
        · simp [IdDomNode.notte_id, IdDomNode.role, hfv]
        · exact hiff m hm
      · intro m hm s hs
        rcases List.mem_cons.mp hm with rfl | hm
        · simp [IdDomNode.notte_id] at hs
        · exact hform m hm s hs
      · simpa only [genPairs, hfv] using hmono
    · rcases hi with _ | n
      · refine ⟨.mk none role none ii cs0, ?_, ?_, ?_, ?_, ?_, ?_⟩
        · simp only [genSeq, genPairs, hfv, hrun]
        · simp only [IdDomNode.erase, hers]
        · simp only [genPairs, hfv, IdDomNode.flatten, List.filterMap_cons,
            IdDomNode.notte_id, hids]
        · intro m hm
          rcases List.mem_cons.mp hm with rfl | hm
          · simp [IdDomNode.notte_id, IdDomNode.highlight_index]
          · exact hiff m hm
        · intro m hm s hs
          rcases List.mem_cons.mp hm with rfl | hm
          · simp [IdDomNode.notte_id] at hs
          · exact hform m hm s hs
        · simpa only [genPairs, hfv] using hmono
      · rcases hsid : NodeRole.short_id canonical true with _ | p
        · exact absurd (short_id_force_isSome canonical)
            (by rw [hsid]; simp)
        · obtain ⟨cs1, hrun1, hers1, hids1, hiff1, hform1, hmono1⟩ :=
            genSeqList_spec cs (fun q => if q = p then cnt p + 1 else cnt q)
          have hstep : ∀ q, cnt q ≤ if q = p then cnt p + 1 else cnt q := by
            intro q
            by_cases hq : q = p
            · subst hq; simp
            · simp [hq]
          refine ⟨.mk (some (p ++ natToStr (cnt p))) role (some n) ii cs1,
            ?_, ?_, ?_, ?_, ?_, ?_⟩
          · simp only [genSeq, genPairs, hfv, hsid, hrun1]
          · simp only [IdDomNode.erase, hers1]
          · simp only [genPairs, hfv, hsid, IdDomNode.flatten,
              List.filterMap_cons, IdDomNode.notte_id, hids1, List.map_cons]
            rfl
          · intro m hm
            rcases List.mem_cons.mp hm with rfl | hm
            · simp [IdDomNode.notte_id, IdDomNode.role,
                IdDomNode.highlight_index, hfv]
            · exact hiff1 m hm
          · intro m hm s hs
            rcases List.mem_cons.mp hm with rfl | hm
            · refine ⟨canonical, p, cnt p, ?_, hsid, le_refl _, ?_⟩
              · simpa only [IdDomNode.role] using hfv
              · simpa only [IdDomNode.notte_id, Option.some.injEq] using
                  hs.symm
            · obtain ⟨c0, p0, k0, h1, h2, h3, h4⟩ := hform1 m hm s hs
              exact ⟨c0, p0, k0, h1, h2, le_trans (hstep p0) h3, h4⟩
          · intro q
            simp only [genPairs, hfv, hsid]
            exact le_trans (hstep q) (hmono1 q)

theorem genSeqList_spec : ∀ (cs : DOMBaseNodeList) (cnt : String → Nat),
    GenSpecList cs cnt
  | .nil, cnt => by
    unfold GenSpecList
    exact ⟨.nil, rfl, rfl, rfl, by simp [IdDomNode.flattenList],
      by simp [IdDomNode.flattenList], fun q => le_refl _⟩
  | .cons c rest, cnt => by
    unfold GenSpecList
    obtain ⟨c2, hrun1, hers1, hids1, hiff1, hform1, hmono1⟩ :=
      genSeq_spec c cnt
    obtain ⟨rest2, hrun2, hers2, hids2, hiff2, hform2, hmono2⟩ :=
      genSeqList_spec rest (genPairs c cnt).2
    refine ⟨.cons c2 rest2, ?_, ?_, ?_, ?_, ?_, ?_⟩
    · simp only [genSeqList, genPairsList, hrun1, hrun2]
    · simp only [IdDomNode.eraseList, hers1, hers2]
    · simp only [genPairsList, IdDomNode.flattenList, List.filterMap_append,
        hids1, hids2, List.map_append]
    · intro m hm
      rcases List.mem_append.mp hm with hm | hm
      · exact hiff1 m hm
      · exact hiff2 m hm
    · intro m hm s hs
      rcases List.mem_append.mp hm with hm | hm
      · exact hform1 m hm s hs
      · obtain ⟨c0, p0, k0, h1, h2, h3, h4⟩ := hform2 m hm s hs
        exact ⟨c0, p0, k0, h1, h2, le_trans (hmono1 p0) h3, h4⟩
    · intro q
      simp only [genPairsList]
      exact le_trans (hmono1 q) (hmono2 q)

end

theorem range1_append (s m n : Nat) :
    List.range' s m ++ List.range' (s + m) n = List.range' s (m + n) := by
  have h := List.range'_append s m n 1
  simpa [Nat.add_comm] using h

/-- Per-prefix bookkeeping of a ghost pair list `ps` produced with incoming
counters `cnt` and final counters `cnt2`: every prefix is one of the six
table letters, and for each prefix the counters used are a contiguous run
starting at the incoming counter, whose length the final counter records. -/
def PairRanges (ps : List (String × Nat)) (cnt cnt2 : String → Nat) : Prop :=
  (∀ pk ∈ ps, pk.1 ∈ ["L", "B", "I", "F", "O", "M"]) ∧
  ∀ p : String,
    (ps.filter (fun pk => pk.1 = p)).map Prod.snd
      = List.range' (cnt p) ((ps.filter (fun pk => pk.1 = p)).length) ∧
    cnt2 p = cnt p + (ps.filter (fun pk => pk.1 = p)).length

mutual

theorem genPairs_ranges : ∀ (t : DOMBaseNode) (cnt : String → Nat),
    PairRanges (genPairs t cnt).1 cnt (genPairs t cnt).2
  | .mk role hi ii cs, cnt => by
    rcases hfv : NodeRole.from_value role with _ | canonical
    · simpa only [genPairs, hfv] using genPairsList_ranges cs cnt
    · rcases hi with _ | n
      · simpa only [genPairs, hfv] using genPairsList_ranges cs cnt
      · rcases hsid : NodeRole.short_id canonical true with _ | p0
        · exact absurd (short_id_force_isSome canonical)
            (by rw [hsid]; simp)
        · rcases hg : genPairsList cs
              (fun q => if q = p0 then cnt p0 + 1 else cnt q) with ⟨ps2, cnt2⟩
          have H := genPairsList_ranges cs
            (fun q => if q = p0 then cnt p0 + 1 else cnt q)
          rw [hg] at H
          obtain ⟨hmem, hrng⟩ := H
          have hpairs : genPairs (DOMBaseNode.mk role (some n) ii cs) cnt
              = ((p0, cnt p0) :: ps2, cnt2) := by
            simp only [genPairs, hfv, hsid, hg]
          rw [hpairs]
          show PairRanges ((p0, cnt p0) :: ps2) cnt cnt2
          constructor
          · intro pk hpk
            rcases List.mem_cons.mp hpk with rfl | hpk
            · exact short_id_mem hsid
            · exact hmem pk hpk
          · intro p
            obtain ⟨h1, h2⟩ := hrng p
            simp only [] at h1 h2
            by_cases hp : p0 = p
            · subst hp
              have hite : (if p0 = p0 then cnt p0 + 1 else cnt p0)
                  = cnt p0 + 1 := if_pos rfl
              rw [hite] at h1 h2
              have hfc : ((p0, cnt p0) :: ps2).filter
                    (fun pk => pk.1 = p0)
                  = (p0, cnt p0) :: ps2.filter (fun pk => pk.1 = p0) := by
                simp
              rw [hfc, List.map_cons, List.length_cons, h1]
              exact ⟨rfl, by omega⟩
            · have hite : (if p = p0 then cnt p0 + 1 else cnt p) = cnt p :=
                if_neg (fun hh => hp hh.symm)
              rw [hite] at h1 h2
              have hfc : ((p0, cnt p0) :: ps2).filter (fun pk => pk.1 = p)
                  = ps2.filter (fun pk => pk.1 = p) := by
                simp [hp]
              rw [hfc]
              exact ⟨h1, h2⟩

theorem genPairsList_ranges : ∀ (cs : DOMBaseNodeList) (cnt : String → Nat),
    PairRanges (genPairsList cs cnt).1 cnt (genPairsList cs cnt).2
  | .nil, cnt => by
    refine ⟨by simp [genPairsList], ?_⟩
    intro p
    simp [genPairsList]
  | .cons c rest, cnt => by
    obtain ⟨hmem1, hrng1⟩ := genPairs_ranges c cnt
    obtain ⟨hmem2, hrng2⟩ := genPairsList_ranges rest (genPairs c cnt).2
    constructor
    · intro pk hpk
      simp only [genPairsList] at hpk
      rcases List.mem_append.mp hpk with hpk | hpk
      · exact hmem1 pk hpk
      · exact hmem2 pk hpk
    · intro p
      obtain ⟨h11, h12⟩ := hrng1 p
      obtain ⟨h21, h22⟩ := hrng2 p
      simp only [genPairsList, List.filter_append, List.map_append,
        List.length_append]
      constructor
      · rw [h11, h21, h12, range1_append]
      · omega

end

theorem idStr_inj {p1 p2 : String} {k1 k2 : Nat}
    (h1 : p1 ∈ ["L", "B", "I", "F", "O", "M"])
    (h2 : p2 ∈ ["L", "B", "I", "F", "O", "M"])
    (h : idStr (p1, k1) = idStr (p2, k2)) : p1 = p2 ∧ k1 = k2 := by
  have hd : (idStr (p1, k1)).data = (idStr (p2, k2)).data := by rw [h]
  simp only [List.mem_cons, List.not_mem_nil, or_false] at h1 h2
  rcases h1 with rfl | rfl | rfl | rfl | rfl | rfl <;>
    rcases h2 with rfl | rfl | rfl | rfl | rfl | rfl <;>
      (injection hd with hc hk) <;>
        first
          | exact absurd hc (by decide)
          | exact ⟨rfl, natDigits_injective hk⟩

theorem nodup_idStr : ∀ (P : List (String × Nat)),
    (∀ pk ∈ P, pk.1 ∈ ["L", "B", "I", "F", "O", "M"]) →
    (∀ p : String,
      ((P.filter (fun pk => pk.1 = p)).map Prod.snd).Nodup) →
    (P.map idStr).Nodup
  | [], _, _ => by simp
  | a :: P, hpre, hranges => by
    simp only [List.map_cons, List.nodup_cons]
    have hfa : ((a :: P).filter (fun pk => pk.1 = a.1))
        = a :: P.filter (fun pk => pk.1 = a.1) := by
      simp
    constructor
    · intro hmem
      rcases List.mem_map.mp hmem with ⟨b, hbP, hba⟩
      obtain ⟨hp, hk⟩ := idStr_inj
        (hpre b (List.mem_cons_of_mem _ hbP))
        (hpre a (List.mem_cons_self _ _))
        (by rw [show ((b.1, b.2) : String × Nat) = b from rfl, hba,
              show ((a.1, a.2) : String × Nat) = a from rfl])
      have h := hranges a.1
      rw [hfa, List.map_cons] at h
      exact (List.nodup_cons.mp h).1
        (List.mem_map.mpr ⟨b, List.mem_filter.mpr
          ⟨hbP, by simp [hp]⟩, hk⟩)
    · refine nodup_idStr P (fun pk h => hpre pk (List.mem_cons_of_mem _ h))
        (fun p => ?_)
      have h := hranges p
      by_cases hap : a.1 = p
      · rw [show ((a :: P).filter (fun pk => pk.1 = p))
              = a :: P.filter (fun pk => pk.1 = p) from by simp [hap],
            List.map_cons] at h
        exact (List.nodup_cons.mp h).2
      · rw [show ((a :: P).filter (fun pk => pk.1 = p))
              = P.filter (fun pk => pk.1 = p) from by simp [hap]] at h
        exact h

/-- C2: on every tree `generate_sequential_ids` succeeds, all assigned ids
are pairwise distinct, every assigned id has the form `prefix ++ digits k`
with `k ≥ 1` and `prefix` the `short_id` of the node's recognised role, and
the `short_id` table is exactly: link → L; button/tab/menuitem/
menuitemcheckbox/menuitemradio/radio/checkbox/switch → B; combobox/textbox/
searchbox/listbox/slider → I; image/img/figure → F; option → O; every other
role of the `NodeRole` enumeration → M. -/
theorem claim_C2 (t : DOMBaseNode) :
    ∃ t2, generate_sequential_ids t = Except.ok t2 ∧
      t2.assignedIds.Nodup ∧
      (∀ m ∈ t2.flatten, ∀ s, m.notte_id = some s →
        ∃ canon p k, NodeRole.from_value m.role = some canon ∧
          NodeRole.short_id canon true = some p ∧ 1 ≤ k ∧
          s = p ++ natToStr k) ∧
      (NodeRole.short_id "link" true = some "L" ∧
       (∀ v ∈ ["button", "tab", "menuitem", "menuitemcheckbox",
          "menuitemradio", "radio", "checkbox", "switch"],
         NodeRole.short_id v true = some "B") ∧
       (∀ v ∈ ["combobox", "textbox", "searchbox", "listbox", "slider"],
         NodeRole.short_id v true = some "I") ∧
       (∀ v ∈ ["image", "img", "figure"],
         NodeRole.short_id v true = some "F") ∧
       NodeRole.short_id "option" true = some "O" ∧
       (∀ pr ∈ nodeRoleMembers,
         pr.2 ∉ ["link", "button", "tab", "menuitem", "menuitemcheckbox",
           "menuitemradio", "radio", "checkbox", "switch", "combobox",
           "textbox", "searchbox", "listbox", "slider", "image", "img",
           "figure", "option"] →
         NodeRole.short_id pr.2 true = some "M")) := by
  obtain ⟨t2, hrun, hers, hids, hiff, hform, hmono⟩ :=
    genSeq_spec t (fun _ => 1)
  refine ⟨t2, ?_, ?_, ?_, by decide, by decide, by decide, by decide,
    by decide, by decide⟩
  · unfold generate_sequential_ids
    rw [hrun]
    rfl
  · have hids' : t2.assignedIds = (genPairs t (fun _ => 1)).1.map idStr :=
      hids
    rw [hids']
    refine nodup_idStr _ (genPairs_ranges t (fun _ => 1)).1 (fun p => ?_)
    obtain ⟨hr, _⟩ := (genPairs_ranges t (fun _ => 1)).2 p
    rw [hr]
    exact List.nodup_range' _ _ _ (by decide)
  · intro m hm s hs
    exact hform m hm s hs

/-- The deviating input for C9: a node whose `is_interactive` flag is
`False` but whose role is recognised and whose highlight index is set. -/
def exC9base : DOMBaseNode :=
  .mk "button" (some 5) false .nil

/-- C9 counterexample: `generate_sequential_ids` consults only the role and
the highlight index, never `is_interactive`, so this non-interactive node
is assigned the id `B1`. -/
theorem claim_C9_counterexample :
    generate_sequential_ids exC9base
      = Except.ok (.mk (some "B1") "button" (some 5) false .nil) ∧
    exC9base.is_interactive = false := ⟨rfl, rfl⟩

/-- C9 (amended): `generate_sequential_ids` succeeds on every tree,
returning the same tree where a node carries an id exactly when its role is
recognised by `NodeRole.from_value` and its highlight index is non-null
(the `is_interactive` flag is not consulted); the ids in document order are
the ghost `(prefix, counter)` pairs rendered, and for each prefix the
counters used are `1, 2, 3, …` in depth-first document order. -/
theorem claim_C9 (t : DOMBaseNode) :
    ∃ t2, generate_sequential_ids t = Except.ok t2 ∧
      t2.erase = t ∧
      (∀ m ∈ t2.flatten,
        m.notte_id.isSome ↔
          ((NodeRole.from_value m.role).isSome ∧
            m.highlight_index.isSome)) ∧
      t2.assignedIds = (genPairs t (fun _ => 1)).1.map idStr ∧
      (∀ p : String,
        ((genPairs t (fun _ => 1)).1.filter
            (fun pk => pk.1 = p)).map Prod.snd
          = List.range' 1
              (((genPairs t (fun _ => 1)).1.filter
                  (fun pk => pk.1 = p)).length)) := by
  obtain ⟨t2, hrun, hers, hids, hiff, hform, hmono⟩ :=
    genSeq_spec t (fun _ => 1)
  refine ⟨t2, ?_, hers, hiff, hids, fun p => ?_⟩
  · unfold generate_sequential_ids
    rw [hrun]
    rfl
  · exact ((genPairs_ranges t (fun _ => 1)).2 p).1

/-! ## `resolution.py`: `NodeResolutionPipe` and `NotteActionProxy` -/

/-- The named errors action resolution can raise: `InvalidActionError`
(id, reason), `InputActionShouldHaveOneParameterError` (id),
`FailedNodeResolutionError` (node id), and the plain `ValueError`s of the
shadow-DOM walk. -/
inductive ResolutionError where
  | invalidAction (id : String) (reason : String)
  | inputActionShouldHaveOneParameter (id : String)
  | failedNodeResolution (id : Option String)
  | valueError (reason : String)
deriving DecidableEq, Repr

/-- `NotteActionProxy._parse_boolean`: case-insensitive membership in the
truthy tuple `("true", "1", "yes", "on")`, then the falsy tuple
`("false", "0", "no", "off")`, else `InvalidActionError`. -/
def parse_boolean (value : String) : Except ResolutionError Bool :=
  if ["true", "1", "yes", "on"].contains (pyToLower value) then .ok true
  else if ["false", "0", "no", "off"].contains (pyToLower value) then
    .ok false
  else .error (.invalidAction "unknown" ("Invalid boolean value: " ++ value))

/-- Python `s[0]` rendered as a string — used only in an error message (on
an empty id the Python would raise `IndexError` instead; no modelled code
path reaches that case). -/
def pyFirstChar (s : String) : String :=
  match s.data with
  | [] => ""
  | c :: _ => ⟨[c]⟩

/-- `NotteActionProxy.forward_parameter_action`: requires a value, then
matches `(action.role, node.get_role_str(), is_editable)` with Python
first-match-wins semantics: `("input", "textbox", _) | (_, _, True)` →
Fill; `("input", "checkbox", _)` → Check with the parsed boolean;
`("input", "combobox", _)` → SelectDropdownOption; `("input", _, _)` →
Fill; anything else → `InvalidActionError`. -/
def NotteActionProxy.forward_parameter_action (action : StepAction)
    (node : DomNode) : Except ResolutionError InteractionAction :=
  match action.value with
  | none => .error (.inputActionShouldHaveOneParameter action.id)
  | some av =>
    let value := get_str_value av
    if (action.role = "input" ∧ node.get_role_str = "textbox")
        ∨ node.computed_attributes.is_editable = true then
      .ok (.fill action.id value action.press_enter action.selector
        (some (node.inner_text 3)))
    else if action.role = "input" ∧ node.get_role_str = "checkbox" then
      match parse_boolean value with
      | .error e => .error e
      | .ok b =>
        .ok (.check action.id b action.press_enter action.selector
          (some node.text))
    else if action.role = "input" ∧ node.get_role_str = "combobox" then
      .ok (.selectDropdownOption action.id value action.press_enter
        action.selector (some node.text))
    else if action.role = "input" then
      .ok (.fill action.id value action.press_enter action.selector
        (some (node.inner_text 3)))
    else
      .error (.invalidAction action.id
        ("unknown action type: " ++ pyFirstChar action.id))

/-- `NotteActionProxy.forward`: role `button`/`link`/`image`/`misc` →
Click; `option` → SelectDropdownOption with `value = node.id or ""`;
`input` → `forward_parameter_action`; else `InvalidActionError`. -/
def NotteActionProxy.forward (action : StepAction) (node : DomNode) :
    Except ResolutionError InteractionAction :=
  if action.role = "button" ∨ action.role = "link" ∨ action.role = "image"
      ∨ action.role = "misc" then
    .ok (.click action.id (some node.text)
      node.computed_attributes.selectors action.press_enter)
  else if action.role = "option" then
    .ok (.selectDropdownOption action.id (node.id.getD "")
      action.press_enter node.computed_attributes.selectors
      (some node.text))
  else if action.role = "input" then
    NotteActionProxy.forward_parameter_action action node
  else
    .error (.invalidAction action.id
      ("unknown action role: " ++ action.role ++ " with id: " ++ action.id))

/-- Python `str.replace` (all non-overlapping occurrences, scanned left to
right, continuing after each replacement), by fuel over the character
list.  Only ever called with a non-empty needle, for which the fuel
`s.length + 1` is exact. -/
def pyReplaceF : Nat → List Char → List Char → List Char → List Char
  | 0, s, _, _ => s
  | fuel + 1, s, needle, repl =>
    if decide (List.IsPrefix needle s) ∧ needle ≠ [] then
      repl ++ pyReplaceF fuel (s.drop needle.length) needle repl
    else
      match s with
      | [] => []
      | c :: rest => c :: pyReplaceF fuel rest needle repl

def pyReplace (s needle repl : String) : String :=
  ⟨pyReplaceF (s.data.length + 1) s.data needle.data repl.data⟩

/-- `xs[-1] = v` on a Python list. -/
def setLast : List String → String → List String
  | [], _ => []
  | [_], v => [v]
  | x :: rest, v => x :: setLast rest v

/-- The `while node.parent is not None` loop of
`selectors_through_shadow_dom`, over the explicit ancestor chain (the
Python tree carries mutable `parent` back-references; here the caller
passes the parents, nearest first).  Each iteration reads the current
node's selectors, and on a shadow root either appends the tag name (empty
xpath) or strips the parent xpath from the last entry and appends the
node's xpath — unprefixed when the parent is the root. -/
def shadowLoop : DomNode → List DomNode → List String →
    Except ResolutionError (List String)
  | _, [], xpaths => .ok xpaths
  | cur, parent :: rest, xpaths =>
    match cur.computed_attributes.selectors with
    | none => .error (.valueError "Is this a valid dom tree?")
    | some selectors =>
      if cur.computed_attributes.shadow_root then
        if selectors.xpath_selector = "" then
          match cur.attributes with
          | none => .error (.valueError "Node has no attributes")
          | some attrs => shadowLoop parent rest (xpaths ++ [attrs.tag_name])
        else
          let stripped := pyReplace (xpaths.getLastD "")
            selectors.xpath_selector ""
          let nxt :=
            if rest.isEmpty then selectors.xpath_selector
            else "xpath=" ++ selectors.xpath_selector
          shadowLoop parent rest (setLast xpaths stripped ++ [nxt])
      else shadowLoop parent rest xpaths

/-- `selectors_through_shadow_dom` from `notte-browser/dom/locate.py`: walk
the parent chain collecting xpath fragments, then join them reversed with
`" >> "`, keeping every other selector field of the node itself. -/
def selectors_through_shadow_dom (node : DomNode)
    (ancestors : List DomNode) : Except ResolutionError NodeSelectors :=
  match node.computed_attributes.selectors with
  | none => .error (.valueError "Node has no selectors")
  | some root_selectors =>
    match shadowLoop node ancestors
        ["xpath=" ++ root_selectors.xpath_selector] with
    | .error e => .error e
    | .ok xpaths =>
      .ok ⟨root_selectors.css_selector, pyJoin " >> " xpaths.reverse,
        root_selectors.notte_selector, root_selectors.in_iframe,
        root_selectors.in_shadow_root,
        root_selectors.iframe_parent_css_selectors,
        root_selectors.playwright_selector⟩

/-- `NodeResolutionPipe.resolve_selectors`: missing selectors raise
`FailedNodeResolutionError`; a shadow-root node is re-resolved through the
shadow DOM. -/
def NodeResolutionPipe.resolve_selectors (node : DomNode)
    (ancestors : List DomNode) : Except ResolutionError NodeSelectors :=
  match node.computed_attributes.selectors with
  | none => .error (.failedNodeResolution node.id)
  | some selectors =>
    if selectors.in_shadow_root then
      selectors_through_shadow_dom node ancestors
    else .ok selectors

/-- Modelled from the spec: a page-level browser action (goto, scrape,
…).  The resolver treats it as an opaque value and returns it unchanged;
only its identity matters here. -/
structure BrowserAction where
  type : String
deriving DecidableEq, Repr

/-- Modelled from the spec: the `BaseAction` argument of
`NodeResolutionPipe.forward` — a page-level browser action, a symbolic
step action, or an already-typed interaction action. -/
inductive BaseAction where
  | browser (a : BrowserAction)
  | step (a : StepAction)
  | interaction (a : InteractionAction)
deriving DecidableEq, Repr

/-- The `InteractionAction | BrowserAction` return type of the
resolver. -/
inductive ResolvedAction where
  | browser (a : BrowserAction)
  | interaction (a : InteractionAction)
deriving DecidableEq, Repr

/-- The two in-place assignments `action.selector = …; action.text_label =
node.text` at the end of `NodeResolutionPipe.forward`. -/
def InteractionAction.withSelector :
    InteractionAction → NodeSelectors → String → InteractionAction
  | .click i _ _ pe, sel, txt => .click i (some txt) (some sel) pe
  | .fill i v pe _ _, sel, txt => .fill i v pe (some sel) (some txt)
  | .check i v pe _ _, sel, txt => .check i v pe (some sel) (some txt)
  | .selectDropdownOption i v pe _ _, sel, txt =>
    .selectDropdownOption i v pe (some sel) (some txt)

/-- Lookup in `selector_map = {inode.id: inode for inode in …}`: a Python
dict comprehension keeps the last binding of a duplicated key, hence the
reversed search. -/
def selectorMapLookup (inodes : List DomNode) (i : String) :
    Option DomNode :=
  inodes.reverse.find? (fun n => n.id = some i)

/-- The tail of `NodeResolutionPipe.forward` shared by the step and
interaction paths: build the selector map from the snapshot's interaction
nodes, fail on an unknown id, then fill in the resolved selectors and the
node's text. -/
def finishResolution (ia : InteractionAction) (dom_node : DomNode)
    (ancestors : List DomNode) : Except ResolutionError ResolvedAction :=
  match dom_node.interaction_nodes with
  | .error e => .error (.valueError e)
  | .ok inodes =>
    match selectorMapLookup inodes ia.id with
    | none =>
      .error (.invalidAction ia.id
        ("action '" ++ ia.id ++ "' not found in page context."))
    | some node =>
      match NodeResolutionPipe.resolve_selectors node ancestors with
      | .error e => .error e
      | .ok sel => .ok (.interaction (ia.withSelector sel node.text))

/-- `NodeResolutionPipe.forward`: browser actions pass through unchanged;
otherwise a snapshot is required; a step action is looked up by id in the
snapshot's tree (`find`) and typed by `NotteActionProxy.forward`; finally
the id must be in the interaction-node selector map and the precomputed
(possibly shadow-DOM-resolved) selectors are attached. -/
def NodeResolutionPipe.forward (action : BaseAction)
    (snapshot : Option DomNode) (ancestors : List DomNode) :
    Except ResolutionError ResolvedAction :=
  match action with
  | .browser a => .ok (.browser a)
  | .step sa =>
    match snapshot with
    | none =>
      .error (.invalidAction "unknown"
        "snapshot is required to resolve selectors for interaction actions")
    | some dom_node =>
      match dom_node.find sa.id with
      | .error e => .error (.valueError e)
      | .ok none =>
        .error (.invalidAction sa.id
          "node cannot be None to be able to execute an interaction action")
      | .ok (some node) =>
        match NotteActionProxy.forward sa node with
        | .error e => .error e
        | .ok ia => finishResolution ia dom_node ancestors
  | .interaction ia =>
    match snapshot with
    | none =>
      .error (.invalidAction "unknown"
        "snapshot is required to resolve selectors for interaction actions")
    | some dom_node => finishResolution ia dom_node ancestors

/-- C5: a step action with role `input` resolved against a non-editable
node whose DOM role is `checkbox` yields a Check action whose boolean is
parsed case-insensitively: lowercased values in `true/1/yes/on` give
`True`, in `false/0/no/off` give `False`, any other value raises
`InvalidActionError`, and a step action with no value raises
`InputActionShouldHaveOneParameterError`. -/
theorem claim_C5 (sa : StepAction) (nd : DomNode)
    (hrole : sa.role = "input") (hnode : nd.get_role_str = "checkbox")
    (hedit : nd.computed_attributes.is_editable = false) :
    (∀ v, sa.value = some v →
      ((["true", "1", "yes", "on"].contains
          (pyToLower (get_str_value v)) = true →
        NotteActionProxy.forward_parameter_action sa nd
          = .ok (.check sa.id true sa.press_enter sa.selector
              (some nd.text))) ∧
       (["true", "1", "yes", "on"].contains
          (pyToLower (get_str_value v)) = false →
        ["false", "0", "no", "off"].contains
          (pyToLower (get_str_value v)) = true →
        NotteActionProxy.forward_parameter_action sa nd
          = .ok (.check sa.id false sa.press_enter sa.selector
              (some nd.text))) ∧
       (["true", "1", "yes", "on"].contains
          (pyToLower (get_str_value v)) = false →
        ["false", "0", "no", "off"].contains
          (pyToLower (get_str_value v)) = false →
        NotteActionProxy.forward_parameter_action sa nd
          = .error (.invalidAction "unknown"
              ("Invalid boolean value: " ++ get_str_value v))))) ∧
    (sa.value = none →
      NotteActionProxy.forward_parameter_action sa nd
        = .error (.inputActionShouldHaveOneParameter sa.id)) := by
  have hn1 : ¬((sa.role = "input" ∧ nd.get_role_str = "textbox")
      ∨ nd.computed_attributes.is_editable = true) := by
    rw [hrole, hnode, hedit]
    simp
  have hp2 : sa.role = "input" ∧ nd.get_role_str = "checkbox" :=
    ⟨hrole, hnode⟩
  constructor
  · intro v hv
    simp only [NotteActionProxy.forward_parameter_action, hv, if_neg hn1,
      if_pos hp2]
    refine ⟨?_, ?_, ?_⟩
    · intro ht
      rw [parse_boolean, if_pos ht]
    · intro ht hf
      rw [parse_boolean, if_neg (by rw [ht]; exact Bool.false_ne_true),
        if_pos hf]
    · intro ht hf
      rw [parse_boolean, if_neg (by rw [ht]; exact Bool.false_ne_true),
        if_neg (by rw [hf]; exact Bool.false_ne_true)]
  · intro hv
    simp only [NotteActionProxy.forward_parameter_action, hv]

/-- The concrete inputs for the C5 witness: an `input`-role step with the
mixed-case value `"TRUE"` against a checkbox interaction node. -/
def stepC5 : StepAction :=
  ⟨"I1", "input", some (.str "TRUE"), none, none⟩

def ndC5 : DomNode :=
  .mk (some "I1") .interaction "checkbox" "lbl" .nil none comp0

theorem claim_C5_witness :
    NotteActionProxy.forward_parameter_action stepC5 ndC5
      = .ok (.check "I1" true none none (some "lbl")) :=
  ((claim_C5 stepC5 ndC5 rfl (by decide) rfl).1 (.str "TRUE") rfl).1
    (by decide)

theorem selectorMapLookup_id {inodes : List DomNode} {i : String}
    {n : DomNode} (h : selectorMapLookup inodes i = some n) :
    n ∈ inodes ∧ n.id = some i := by
  refine ⟨List.mem_reverse.mp (List.mem_of_find?_eq_some h), ?_⟩
  have h1 := List.find?_some h
  simpa using h1

theorem selectorMapLookup_isSome {inodes : List DomNode} {i : String}
    (h : ∃ n ∈ inodes, n.id = some i) :
    ∃ n, selectorMapLookup inodes i = some n := by
  rw [selectorMapLookup]
  rw [← Option.isSome_iff_exists, List.find?_isSome]
  obtain ⟨n, hn, hid⟩ := h
  exact ⟨n, List.mem_reverse.mpr hn, by simp [hid]⟩

/-- The deviating snapshot and action for C6: the tree's only interaction
node has id `I1`, and the step action addresses exactly that id. -/
def exC6 : DomNode :=
  .mk (some "I1") .interaction "checkbox" "txt" .nil none comp0

def stepC6 : StepAction :=
  ⟨"I1", "input", some (.str "maybe"), none, none⟩

/-- C6 counterexample: the action's id does occur among the snapshot's
interaction-node ids, yet resolution raises `InvalidActionError` (the
checkbox value `"maybe"` is not a boolean), so "raises a named
invalid-action error exactly when the id does not occur" is false. -/
theorem claim_C6_counterexample :
    "I1" ∈ exC6.interactionIds ∧
    NodeResolutionPipe.forward (.step stepC6) (some exC6) []
      = .error (.invalidAction "unknown" "Invalid boolean value: maybe") :=
  ⟨by decide, rfl⟩

/-- C6 (amended): browser actions pass through unchanged and identical;
a step action without a snapshot raises `InvalidActionError`; on a
well-formed snapshot, a step action whose role is one of
`button`/`link`/`image`/`misc` raises a named `InvalidActionError`
whenever its id is not among the tree's interaction-node ids, and when
the id is present it resolves to a Click interaction action carrying the
mapped node's precomputed selectors (here in the non-shadow-root case)
and the node's text as label.  For other roles the error characterisation
fails: parameter typing can raise `InvalidActionError` even on a present
id (see the counterexample). -/
theorem claim_C6 (a : BrowserAction) (sa : StepAction) (t : DomNode)
    (anc : List DomNode) (hwf : t.WellFormed)
    (hrole : sa.role ∈ ["button", "link", "image", "misc"]) :
    (∀ snap anc2,
      NodeResolutionPipe.forward (.browser a) snap anc2
        = .ok (.browser a)) ∧
    (NodeResolutionPipe.forward (.step sa) none anc
      = .error (.invalidAction "unknown"
          "snapshot is required to resolve selectors for interaction actions")) ∧
    (sa.id ∉ t.interactionIds →
      ∃ i r, NodeResolutionPipe.forward (.step sa) (some t) anc
        = .error (.invalidAction i r)) ∧
    (sa.id ∈ t.interactionIds →
      ∃ ins node, t.interaction_nodes = .ok ins ∧
        selectorMapLookup ins sa.id = some node ∧
        ∀ sel, node.computed_attributes.selectors = some sel →
          sel.in_shadow_root = false →
          NodeResolutionPipe.forward (.step sa) (some t) anc
            = .ok (.interaction
                (.click sa.id (some node.text) (some sel)
                  sa.press_enter))) := by
  have hor : sa.role = "button" ∨ sa.role = "link" ∨ sa.role = "image"
      ∨ sa.role = "misc" := by simpa using hrole
  obtain ⟨ins, hins, hids⟩ := interaction_nodes_of_wf t hwf
  obtain ⟨r, hfind, hiffR, hidR⟩ := find_spec t sa.id hwf
  refine ⟨fun snap anc2 => rfl, rfl, ?_, ?_⟩
  · intro hnot
    match r, hfind, hiffR with
    | none, hfind, _ =>
      exact ⟨sa.id,
        "node cannot be None to be able to execute an interaction action",
        by simp only [NodeResolutionPipe.forward, hfind]⟩
    | some fnode, hfind, _ =>
      have hproxy : NotteActionProxy.forward sa fnode
          = .ok (.click sa.id (some fnode.text)
              fnode.computed_attributes.selectors sa.press_enter) := by
        rw [NotteActionProxy.forward, if_pos hor]
      have hlook : selectorMapLookup ins sa.id = none := by
        rcases hl : selectorMapLookup ins sa.id with _ | n
        · rfl
        · obtain ⟨hmem, hid⟩ := selectorMapLookup_id hl
          exact absurd (hids ▸ List.mem_filterMap.mpr ⟨n, hmem, hid⟩) hnot
      exact ⟨sa.id, "action '" ++ sa.id ++ "' not found in page context.",
        by simp only [NodeResolutionPipe.forward, hfind, hproxy,
          finishResolution, hins, InteractionAction.id, hlook]⟩
  · intro hmem
    have hsome : ∃ n ∈ ins, n.id = some sa.id := by
      obtain ⟨n, hn, hid⟩ := List.mem_filterMap.mp (hids ▸ hmem)
      exact ⟨n, hn, hid⟩
    obtain ⟨node, hlook⟩ := selectorMapLookup_isSome hsome
    obtain ⟨m, hmfl, hmint, hmid⟩ := mem_interactionIds.mp hmem
    have hsub : sa.id ∈ t.subtree_ids :=
      subtree_ids_subset hmfl _ (self_id_mem_subtree_ids hmid)
    match r, hfind, hiffR with
    | none, hfind, hiffR =>
      exact absurd (hiffR.mpr hsub) (by simp)
    | some fnode, hfind, _ =>
      have hproxy : NotteActionProxy.forward sa fnode
          = .ok (.click sa.id (some fnode.text)
              fnode.computed_attributes.selectors sa.press_enter) := by
        rw [NotteActionProxy.forward, if_pos hor]
      refine ⟨ins, node, hins, hlook, fun sel hsel hshadow => ?_⟩
      have hres : NodeResolutionPipe.resolve_selectors node anc
          = .ok sel := by
        have hsh : ¬(sel.in_shadow_root = true) := by
          rw [hshadow]
          exact Bool.false_ne_true
        simp only [NodeResolutionPipe.resolve_selectors, hsel, if_neg hsh]
      simp only [NodeResolutionPipe.forward, hfind, hproxy,
        finishResolution, hins, InteractionAction.id, hlook, hres,
        InteractionAction.withSelector]

/-- The concrete inputs for the C6 witness: a button node with precomputed
non-shadow selectors, addressed by a `button`-role step action. -/
def selC6w : NodeSelectors :=
  ⟨"css", "xp", "ns", false, false, [], none⟩

def tC6w : DomNode :=
  .mk (some "B1") .interaction "button" "Go" .nil none
    ⟨false, false, false, false, false, none, some selC6w⟩

def stepC6w : StepAction :=
  ⟨"B1", "button", none, none, none⟩

theorem claim_C6_witness :
    (∀ snap anc2,
      NodeResolutionPipe.forward (.browser ⟨"goto"⟩) snap anc2
        = .ok (.browser ⟨"goto"⟩)) ∧
    (NodeResolutionPipe.forward (.step stepC6w) none []
      = .error (.invalidAction "unknown"
          "snapshot is required to resolve selectors for interaction actions")) ∧
    (stepC6w.id ∉ tC6w.interactionIds →
      ∃ i r, NodeResolutionPipe.forward (.step stepC6w) (some tC6w) []
        = .error (.invalidAction i r)) ∧
    (stepC6w.id ∈ tC6w.interactionIds →
      ∃ ins node, tC6w.interaction_nodes = .ok ins ∧
        selectorMapLookup ins stepC6w.id = some node ∧
        ∀ sel, node.computed_attributes.selectors = some sel →
          sel.in_shadow_root = false →
          NodeResolutionPipe.forward (.step stepC6w) (some tC6w) []
            = .ok (.interaction
                (.click stepC6w.id (some node.text) (some sel)
                  stepC6w.press_enter))) :=
  claim_C6 ⟨"goto"⟩ stepC6w tC6w []
    (by unfold DomNode.WellFormed; decide) (by decide)

/-! ## `csspaths.py`: `xpath_to_css_path` and `build_csspath` -/

/-- Python `str.lstrip(c)` for a single strip character. -/
def pyLStripChar (c : Char) : List Char → List Char
  | [] => []
  | x :: rest => if x = c then pyLStripChar c rest else x :: rest

/-- The body of the `for idx in indices` loop of `xpath_to_css_path`: a
digit string appends `:nth-of-type(int(idx))`, `last()` appends
`:last-of-type`, an index containing `position()` and `>1` appends
`:nth-of-type(n+2)`, anything else appends nothing (the guarded `int`
cannot raise, so the `except ValueError` is dead). -/
def idxSuffix (idx : List Char) : String :=
  if pyIsDigit idx then ":nth-of-type(" ++ natToStr (digitsVal idx) ++ ")"
  else if idx = "last()".data then ":last-of-type"
  else if pyInList "position()".data idx then
    (if pyInList ">1".data idx then ":nth-of-type(n+2)" else "")
  else ""

/-- One XPath segment: without a `[` it is kept verbatim; otherwise the
part before the first `[` is the base, the bracketed indices are cut at
`]` (dropping the final empty piece), stripped of brackets and translated
by `idxSuffix` in order. -/
def cssPart (part : List Char) : String :=
  if pyInList ['['] part then
    let base_part : List Char := part.takeWhile (fun c => !(c = '['))
    let index_part : List Char := part.dropWhile (fun c => !(c = '['))
    let indices := ((pySplitChar ']' index_part).dropLast).map
      (fun i => pyStripChars ['[', ']'] i)
    (⟨base_part⟩ : String) ++ pyJoin "" (indices.map idxSuffix)
  else ⟨part⟩

/-- `xpath_to_css_path`: empty in, empty out; otherwise strip leading
slashes, split on `/`, translate each non-empty segment and join with
`" > "`. -/
def xpath_to_css_path (xpath : String) : String :=
  if xpath = "" then ""
  else
    let parts := pySplitChar '/' (pyLStripChar '/' xpath.data)
    pyJoin " > " (parts.filterMap (fun part =>
      if part.isEmpty then none else some (cssPart part)))

/-- First character of `^[a-zA-Z_][a-zA-Z0-9_-]*$`. -/
def validClassHead (c : Char) : Bool :=
  ('a' ≤ c && c ≤ 'z') || ('A' ≤ c && c ≤ 'Z') || c = '_'

/-- Continuation characters of the class-name pattern. -/
def validClassRest (c : Char) : Bool :=
  validClassHead c || ('0' ≤ c && c ≤ '9') || c = '-'

/-- `re.compile(r"^[a-zA-Z_][a-zA-Z0-9_-]*$").match(s)` as a predicate
(anchored at both ends, so a full match). -/
def validClassName : List Char → Bool
  | [] => false
  | c :: rest => validClassHead c && rest.all validClassRest

/-- Python `str.split()` with no arguments: split on whitespace runs,
discarding empty tokens (`acc` is the current token, reversed). -/
def pySplitWsAux : List Char → List Char → List (List Char)
  | [], acc => if acc.isEmpty then [] else [acc.reverse]
  | c :: rest, acc =>
    if pyWsChar c then
      if acc.isEmpty then pySplitWsAux rest []
      else acc.reverse :: pySplitWsAux rest []
    else pySplitWsAux rest (c :: acc)

def pySplitWs (s : String) : List (List Char) :=
  pySplitWsAux s.data []

/-- `re.sub(r"\s+", " ", value)`: replace each maximal whitespace run by a
single space (`inRun` remembers whether the previous character was part of
a run). -/
def collapseWsAux : List Char → Bool → List Char
  | [], _ => []
  | c :: rest, inRun =>
    if pyWsChar c then
      if inRun then collapseWsAux rest true
      else ' ' :: collapseWsAux rest true
    else c :: collapseWsAux rest false

def collapseWs (s : String) : String :=
  ⟨collapseWsAux s.data false⟩

/-- The static `SAFE_ATTRIBUTES` set of `build_csspath`. -/
def SAFE_ATTRIBUTES : List String :=
  ["id", "name", "type", "placeholder", "aria-label", "aria-labelledby",
   "aria-describedby", "role", "for", "autocomplete", "required",
   "readonly", "alt", "title", "src", "href", "target"]

/-- The attributes added when `include_dynamic_attributes` holds. -/
def dynamic_attributes : List String :=
  ["data-id", "data-qa", "data-cy", "data-testid"]

/-- `any(char in value for char in "...")` over the special-character
string (double quote, single quote, angle brackets, backquote, newline,
carriage return, tab). -/
def hasSpecialChar (v : String) : Bool :=
  "\"'<>`\n\r\t".data.any (fun c => v.data.contains c)

/-- The class-handling block of `build_csspath`: when a non-empty `class`
attribute is present (dict keys are unique, modelled as the first list
entry) and dynamic attributes are included, append `.name` for every
whitespace-separated token matching the class-name pattern, skipping the
rest. -/
def classSuffix (include_dyn : Bool)
    (attributes : List (String × String)) : String :=
  match attributes.lookup "class" with
  | none => ""
  | some cv =>
    if cv ≠ "" ∧ include_dyn = true then
      pyJoin "" ((pySplitWs cv).filterMap (fun cn =>
        if pyStripList cn = [] then none
        else if validClassName cn then
          some ("." ++ (⟨cn⟩ : String))
        else none))
    else ""

/-- The attribute loop body of `build_csspath`: skip `class`, blank and
unsafe attributes; escape `:` in the name; an empty value yields
`[attr]`, a value with special characters yields a substring match on the
whitespace-collapsed, stripped, quote-escaped value, and any other value
an exact match. -/
def attrSuffix (include_dyn : Bool) (attr value : String) : String :=
  if attr = "class" then ""
  else if pyStrip attr = "" then ""
  else if !(SAFE_ATTRIBUTES.contains attr
      || (include_dyn && dynamic_attributes.contains attr)) then ""
  else
    let safe_attribute := pyReplace attr ":" "\\:"
    if value = "" then "[" ++ safe_attribute ++ "]"
    else if hasSpecialChar value then
      "[" ++ safe_attribute ++ "*=\"" ++
        pyReplace (pyStrip (collapseWs value)) "\"" "\\\"" ++ "\"]"
    else "[" ++ safe_attribute ++ "=\"" ++ value ++ "\"]"

/-- `build_csspath`: the `try` body — xpath translation, class names, then
the safe attributes in dict (insertion) order.  Every modelled operation
is total, so the `except Exception` fallback (`cssFallback` below) is
unreachable here; `tag_name` and `highlight_index` are only read by that
fallback. -/
def build_csspath (tag_name xpath : String)
    (attributes : List (String × String)) (highlight_index : Option Nat)
    (include_dynamic_attributes : Bool) : String :=
  xpath_to_css_path xpath
    ++ classSuffix include_dynamic_attributes attributes
    ++ pyJoin "" (attributes.map (fun av =>
        attrSuffix include_dynamic_attributes av.1 av.2))

/-- The `except Exception` fallback `f"{tag_name}[highlight_index='{N}']"`
(Python prints `None` for a null index). -/
def cssFallback (tag_name : String) (highlight_index : Option Nat) :
    String :=
  tag_name ++ "[highlight_index='"
    ++ (match highlight_index with
        | some n => natToStr n
        | none => "None") ++ "']"

theorem str_append_empty (s : String) : s ++ "" = s := by
  cases s with
  | mk data =>
    show String.mk (data ++ []) = String.mk data
    rw [List.append_nil]

/-- C7: `build_csspath` is total — every input yields a string — and on an
attribute value containing special characters (quotes, newlines, …) it
does not fail but emits the substring match
`[attr*="collapsed-stripped-escaped value"]`; the `except` fallback keeps
the shape `tag[highlight_index='N']`. -/
theorem claim_C7 (tag xpath : String) (attrs : List (String × String))
    (hi : Option Nat) :
    (∃ s, build_csspath tag xpath attrs hi true = s) ∧
    (∀ attr v, attr ∈ SAFE_ATTRIBUTES → v ≠ "" →
      hasSpecialChar v = true →
      build_csspath tag xpath [(attr, v)] hi true
        = xpath_to_css_path xpath
          ++ ("[" ++ pyReplace attr ":" "\\:" ++ "*=\""
            ++ pyReplace (pyStrip (collapseWs v)) "\"" "\\\"" ++ "\"]")) ∧
    (∀ n, cssFallback tag (some n)
      = tag ++ "[highlight_index='" ++ natToStr n ++ "']") := by
  refine ⟨⟨_, rfl⟩, ?_, fun n => rfl⟩
  intro attr v hattr hne hspec
  have hne_class : attr ≠ "class" := by
    intro h
    subst h
    exact absurd hattr (by decide)
  have hcl : (("class" : String) == attr) = false :=
    beq_eq_false_iff_ne.mpr (Ne.symm hne_class)
  have hclass : classSuffix true [(attr, v)] = "" := by
    simp only [classSuffix, List.lookup, hcl]
  have hstrip : ¬(pyStrip attr = "") := by
    fin_cases hattr <;> decide
  have hcont : SAFE_ATTRIBUTES.contains attr = true :=
    List.elem_iff.mpr hattr
  have hattrS : attrSuffix true attr v
      = "[" ++ pyReplace attr ":" "\\:" ++ "*=\""
        ++ pyReplace (pyStrip (collapseWs v)) "\"" "\\\"" ++ "\"]" := by
    rw [attrSuffix, if_neg hne_class, if_neg hstrip, if_neg
      (by rw [hcont, Bool.true_or]; exact (by decide : ¬((!true) = true))),
      if_neg hne, if_pos hspec]
  show xpath_to_css_path xpath ++ classSuffix true [(attr, v)]
      ++ pyJoin "" ([(attr, v)].map (fun av => attrSuffix true av.1 av.2))
    = _
  rw [hclass, str_append_empty]
  show xpath_to_css_path xpath ++ attrSuffix true attr v = _
  rw [hattrS]

theorem claim_C7_witness :
    build_csspath "input" "/html/body/input"
        [("placeholder", "say\n\"hi\"  now")] none true
      = "html > body > input[placeholder*=\"say \\\"hi\\\" now\"]" := by
  have h := (claim_C7 "input" "/html/body/input"
      [("placeholder", "say\n\"hi\"  now")] none).2.1 "placeholder"
    "say\n\"hi\"  now" (by decide) (by decide) (by decide)
  rw [h]
  rfl

theorem takeWhile_app_all {p : Char → Bool} :
    ∀ (l1 l2 : List Char), (∀ c ∈ l1, p c = true) →
      (l1 ++ l2).takeWhile p = l1 ++ l2.takeWhile p
  | [], l2, _ => rfl
  | c :: l1, l2, h => by
    rw [List.cons_append, List.takeWhile_cons, h c (List.mem_cons_self c l1),
      if_pos rfl, List.cons_append,
      takeWhile_app_all l1 l2 (fun x hx => h x (List.mem_cons_of_mem c hx))]

theorem dropWhile_app_all {p : Char → Bool} :
    ∀ (l1 l2 : List Char), (∀ c ∈ l1, p c = true) →
      (l1 ++ l2).dropWhile p = l2.dropWhile p
  | [], l2, _ => rfl
  | c :: l1, l2, h => by
    rw [List.cons_append, List.dropWhile_cons, h c (List.mem_cons_self c l1),
      if_pos rfl]
    exact dropWhile_app_all l1 l2 (fun x hx => h x (List.mem_cons_of_mem c hx))

theorem dropWhile_all_false {p : Char → Bool} :
    ∀ (l : List Char), (∀ c ∈ l, p c = false) → l.dropWhile p = l
  | [], _ => rfl
  | c :: l, h => by
    rw [List.dropWhile_cons, h c (List.mem_cons_self c l), if_neg
      (by simp)]

theorem pySplitChar_no_sep {sep : Char} :
    ∀ (l : List Char), (∀ c ∈ l, c ≠ sep) →
      pySplitChar sep (l ++ [sep]) = [l, []]
  | [], _ => by
    show pySplitChar sep (sep :: []) = [[], []]
    rw [pySplitChar]
    simp [pySplitChar]
  | c :: l, h => by
    rw [List.cons_append, pySplitChar,
      pySplitChar_no_sep l (fun x hx => h x (List.mem_cons_of_mem c hx))]
    simp [h c (List.mem_cons_self c l)]

theorem contains_brackets_false {c : Char} (h : c ≠ '[' ∧ c ≠ ']') :
    (['[', ']'].contains c) = false := by
  rw [Bool.eq_false_iff]
  intro hc
  rw [List.elem_iff] at hc
  rcases List.mem_cons.mp hc with rfl | hc
  · exact h.1 rfl
  · rcases List.mem_cons.mp hc with rfl | hc
    · exact h.2 rfl
    · simp at hc

theorem pyStripChars_bracket {idx : List Char}
    (hidx : ∀ c ∈ idx, c ≠ '[' ∧ c ≠ ']') :
    pyStripChars ['[', ']'] ('[' :: idx) = idx := by
  rw [pyStripChars]
  have hp : (['[', ']'].contains '[') = true := by decide
  have h1 : List.dropWhile (fun c => ['[', ']'].contains c) ('[' :: idx)
      = idx := by
    rw [List.dropWhile_cons, hp, if_pos rfl]
    exact dropWhile_all_false idx
      (fun c hc => contains_brackets_false (hidx c hc))
  rw [h1]
  rw [dropWhile_all_false _
    (fun c hc => contains_brackets_false (hidx c (List.mem_reverse.mp hc)))]
  exact List.reverse_reverse idx

theorem cssPart_bracket (t idx : List Char)
    (ht : ∀ c ∈ t, c ≠ '[' ∧ c ≠ ']')
    (hidx : ∀ c ∈ idx, c ≠ '[' ∧ c ≠ ']') :
    cssPart (t ++ '[' :: (idx ++ [']'])) = (⟨t⟩ : String) ++ idxSuffix idx := by
  have hin : pyInList ['['] (t ++ '[' :: (idx ++ [']'])) = true := by
    rw [pyInList, decide_eq_true_eq]
    exact ⟨t, idx ++ [']'], by simp⟩
  have htake : (t ++ '[' :: (idx ++ [']'])).takeWhile (fun c => !(c = '['))
      = t := by
    rw [takeWhile_app_all t _ (fun c hc => by simp [(ht c hc).1])]
    rw [List.takeWhile_cons]
    simp
  have hdrop : (t ++ '[' :: (idx ++ [']'])).dropWhile (fun c => !(c = '['))
      = '[' :: (idx ++ [']']) := by
    rw [dropWhile_app_all t _ (fun c hc => by simp [(ht c hc).1])]
    rw [List.dropWhile_cons]
    simp
  have hsplit : pySplitChar ']' ('[' :: (idx ++ [']'])) = ['[' :: idx, []] := by
    have h := @pySplitChar_no_sep ']' ('[' :: idx)
      (fun c hc => by
        rcases List.mem_cons.mp hc with rfl | hc
        · decide
        · exact (hidx c hc).2)
    simpa using h
  rw [cssPart, if_pos hin, htake, hdrop]
  show (⟨t⟩ : String) ++ pyJoin ""
      ((((pySplitChar ']' ('[' :: (idx ++ [']']))).dropLast).map
        (fun i => pyStripChars ['[', ']'] i)).map idxSuffix) = _
  rw [hsplit]
  show (⟨t⟩ : String)
      ++ pyJoin "" [idxSuffix (pyStripChars ['[', ']'] ('[' :: idx))] = _
  rw [pyStripChars_bracket hidx]
  rfl

theorem isDigit_not_bracket {c : Char} (h : c.isDigit = true) :
    c ≠ '[' ∧ c ≠ ']' := by
  constructor <;> rintro rfl <;> simp [Char.isDigit] at h

theorem natDigits_ne_nil (n : Nat) : natDigits n ≠ [] := by
  rw [natDigits_unfold]
  by_cases h : n < 10
  · rw [if_pos h]; simp
  · rw [if_neg h]; simp

/-- C8: each bracketed XPath index translates as specified — `[n]` to
`:nth-of-type(n)`, `[last()]` to `:last-of-type`, `[position()>1]` to
`:nth-of-type(n+2)` — segments are joined with `" > "` as the example
shows, and the example selector contains `.btn`, `.primary`, and
`:nth-of-type(2)`, while a class token failing the pattern
(`1bad`) is skipped. -/
theorem claim_C8 (t : List Char) (n : Nat)
    (ht : ∀ c ∈ t, c ≠ '[' ∧ c ≠ ']') :
    (cssPart (t ++ '[' :: (natDigits n ++ [']']))
      = (⟨t⟩ : String) ++ (":nth-of-type(" ++ natToStr n ++ ")")) ∧
    (cssPart (t ++ '[' :: ("last()".data ++ [']']))
      = (⟨t⟩ : String) ++ ":last-of-type") ∧
    (cssPart (t ++ '[' :: ("position()>1".data ++ [']']))
      = (⟨t⟩ : String) ++ ":nth-of-type(n+2)") ∧
    (build_csspath "button" "/html/body/div[2]/button[1]"
        [("class", "btn primary")] none true
      = "html > body > div:nth-of-type(2) > button:nth-of-type(1).btn.primary") ∧
    (pyIn ".btn" (build_csspath "button" "/html/body/div[2]/button[1]"
        [("class", "btn primary")] none true) = true ∧
     pyIn ".primary" (build_csspath "button" "/html/body/div[2]/button[1]"
        [("class", "btn primary")] none true) = true ∧
     pyIn ":nth-of-type(2)" (build_csspath "button"
        "/html/body/div[2]/button[1]" [("class", "btn primary")] none
        true) = true) ∧
    (build_csspath "button" "/x" [("class", "btn 1bad")] none true
      = "x.btn") := by
  refine ⟨?_, ?_, ?_, by decide, ⟨by decide, by decide, by decide⟩,
    by decide⟩
  · rw [cssPart_bracket t (natDigits n) ht
      (fun c hc => isDigit_not_bracket (natDigits_isDigit n c hc))]
    have hd : pyIsDigit (natDigits n) = true := by
      rw [pyIsDigit]
      rw [Bool.and_eq_true]
      constructor
      · simpa using natDigits_ne_nil n
      · rw [List.all_eq_true]
        exact fun c hc => natDigits_isDigit n c hc
    rw [idxSuffix, if_pos hd, digitsVal_natDigits]
  · rw [cssPart_bracket t "last()".data ht (by decide)]
    rfl
  · rw [cssPart_bracket t "position()>1".data ht (by decide)]
    rfl

theorem claim_C8_witness :
    cssPart ("div".data ++ '[' :: (natDigits 2 ++ [']']))
      = ("div" : String) ++ (":nth-of-type(" ++ natToStr 2 ++ ")") :=
  (claim_C8 "div".data 2 (by decide)).1
